import Mathlib

/-
Verification development for the pytacview repository.

The embedding models the two in-scope source files:
  * core/data_engine.py  (Entity, trajectory interpolation, DataEngine registry)
  * myio/acmi_importer.py (ACMI header/data parsing, classification, finalization)

Modelling conventions:
  * Python `datetime` instants and `float` numbers are modelled as exact
    rationals (ℚ); `a - b` on datetimes followed by `.total_seconds()` is plain
    rational subtraction.
  * Python strings are `List Char`.
  * A Python `None`-able value is `Option _`; code that can raise an uncaught
    exception returns `Except Unit _`, with `.error ()` standing for the raise
    (e.g. `ZeroDivisionError` from float division by zero, or the `TypeError`
    from `None + timedelta`).
  * The external library calls `pymap3d.geodetic2ned` and `math.radians` are
    not part of the repository; they are passed in as an `ExtLib` parameter,
    and every theorem quantifies over it.
-/

namespace PyTacview

/-! ## String utilities (List Char) -/

/-- `beginsWith pat s` models Python `s.startswith(pat)`. -/
def beginsWith : List Char → List Char → Bool
  | [], _ => true
  | _ :: _, [] => false
  | p :: ps, c :: cs => decide (p = c) && beginsWith ps cs

/-- `containsSub pat s` models Python `pat in s` (substring containment). -/
def containsSub (pat : List Char) : List Char → Bool
  | [] => beginsWith pat []
  | s@(_ :: cs) => beginsWith pat s || containsSub pat cs

/-- Models Python `s.strip()` (whitespace removed from both ends). -/
def stripL (s : List Char) : List Char :=
  ((s.dropWhile Char.isWhitespace).reverse.dropWhile Char.isWhitespace).reverse

/-- Models Python `s.lower()` (ASCII case folding suffices for the inputs used). -/
def toLowerL (s : List Char) : List Char := s.map Char.toLower

/-- The part of `s` after the first occurrence of `pat`, if `pat` occurs;
models the tail of Python `s.split(pat, ...)[0]`/`[1]` boundary. -/
def afterFirstSub (pat : List Char) : List Char → Option (List Char)
  | [] => if beginsWith pat [] then some [] else none
  | s@(_ :: r) =>
    if beginsWith pat s then some (s.drop pat.length) else afterFirstSub pat r

/-- The characters of `s` before the next occurrence of `pat`;
together with `afterFirstSub` this models Python `s.split(pat)[1]`. -/
def upToNextSub (pat : List Char) : List Char → List Char
  | [] => []
  | s@(c :: r) => if beginsWith pat s then [] else c :: upToNextSub pat r

/-- Drop the characters of `s` before the first occurrence of `pat`;
models Python `s[s.find(pat):]` when `pat` occurs in `s`. -/
def dropBeforeSub (pat : List Char) : List Char → List Char
  | [] => []
  | s@(_ :: r) => if beginsWith pat s then s else dropBeforeSub pat r

/-- Models Python `s.replace('Z', '+00:00')` as used on reference-time strings. -/
def replaceZ : List Char → List Char
  | [] => []
  | 'Z' :: r => '+' :: '0' :: '0' :: ':' :: '0' :: '0' :: replaceZ r
  | c :: r => c :: replaceZ r

/-- Models Python `s.split('|')` (all parts kept, including empty ones). -/
def splitBar : List Char → List (List Char)
  | [] => [[]]
  | '|' :: rest => [] :: splitBar rest
  | c :: rest =>
    match splitBar rest with
    | h :: t => (c :: h) :: t
    | [] => [[c]]

/-! ## Numeric parsing -/

/-- Numeric value of a digit string. -/
def natOfDigits (l : List Char) : ℕ :=
  l.foldl (fun a c => a * 10 + (c.toNat - 48)) 0

/-- Unsigned decimal parse: digits, optionally with a fractional part,
at least one digit overall (forms `d+`, `d+.d*`, `.d+`). -/
def parseUF (s : List Char) : Option ℚ :=
  let ip := s.takeWhile Char.isDigit
  let r1 := s.drop ip.length
  match r1 with
  | [] => if ip = [] then none else some ((natOfDigits ip : ℚ))
  | '.' :: r2 =>
    let fp := r2.takeWhile Char.isDigit
    let r3 := r2.drop fp.length
    if r3 = [] then
      if ip = [] ∧ fp = [] then none
      else some ((natOfDigits ip : ℚ) + (natOfDigits fp : ℚ) / ((10 : ℚ) ^ fp.length))
    else none
  | _ => none

/-- Models Python `float(s)` on the plain decimal notation exercised by the
parser (optional surrounding whitespace, optional sign, digits with an
optional fractional part); exotic forms (exponents, `inf`, `nan`,
underscores) are outside the inputs the importer handles. `none` models a
raised `ValueError`. -/
def parseFloat (s0 : List Char) : Option ℚ :=
  let s := stripL s0
  match s with
  | '+' :: r => parseUF r
  | '-' :: r => (parseUF r).map (fun q => -q)
  | _ => parseUF s

/-- Read exactly `n` decimal digits from the front of `s`. -/
def readDigits (n : ℕ) (s : List Char) : Option (ℕ × List Char) :=
  let ds := s.take n
  if ds.length = n ∧ ds.all Char.isDigit then some (natOfDigits ds, s.drop n)
  else none

/-- Expect character `c` at the front of `s`. -/
def expectChar (c : Char) : List Char → Option (List Char)
  | x :: r => if x = c then some r else none
  | [] => none

/-- Gregorian leap-year rule, as used by Python `datetime`. -/
def isLeap (y : ℤ) : Bool :=
  decide ((y % 4 = 0 ∧ ¬ y % 100 = 0) ∨ y % 400 = 0)

/-- Days in a month, as validated by Python `datetime`. -/
def daysInMonth (y : ℤ) (m : ℕ) : ℕ :=
  if m = 2 then (if isLeap y then 29 else 28)
  else if m = 4 ∨ m = 6 ∨ m = 9 ∨ m = 11 then 30
  else 31

/-- Days since the Unix epoch of a civil date (standard days-from-civil
computation); lets the model represent a `datetime` instant as rational
seconds since the epoch. -/
def daysFromCivil (y : ℤ) (m d : ℕ) : ℤ :=
  let yy : ℤ := if m ≤ 2 then y - 1 else y
  let era : ℤ := Int.fdiv yy 400
  let yoe : ℤ := yy - era * 400
  let mp : ℕ := (m + 9) % 12
  let doy : ℤ := (153 * (mp : ℤ) + 2) / 5 + (d : ℤ) - 1
  let doe : ℤ := yoe * 365 + yoe / 4 - yoe / 100 + doy
  era * 146097 + doe - 719468

/-- Seconds since the epoch at midnight of a civil date (integer part of the
instant; the arithmetic is integral, cast to ℚ once at the end). -/
def dateSecondsZ (y mo d : ℕ) : ℤ :=
  daysFromCivil (y : ℤ) mo d * 86400

/-- Optional fractional-seconds part `.d+` of an ISO time; `none` in the
first component when no fraction is present. -/
def parseFracPart : List Char → Option (Option ℚ × List Char)
  | '.' :: r =>
    let fd := r.takeWhile Char.isDigit
    if fd = [] then none
    else some (some ((natOfDigits fd : ℚ) / (10 : ℚ) ^ fd.length), r.drop fd.length)
  | s => some (none, s)

/-- Optional UTC-offset part `±HH:MM` of an ISO time; returns the offset in
integer seconds (to be subtracted to obtain UTC). -/
def parseOffsetPart : List Char → Option ℤ
  | [] => some 0
  | c :: r =>
    if c = '+' ∨ c = '-' then
      match readDigits 2 r with
      | none => none
      | some (oh, r1) =>
        match r1 with
        | ':' :: r2 =>
          match readDigits 2 r2 with
          | none => none
          | some (om, r3) =>
            if r3 = [] ∧ oh ≤ 23 ∧ om ≤ 59 then
              some (if c = '-' then -((oh : ℤ) * 3600 + (om : ℤ) * 60)
                    else (oh : ℤ) * 3600 + (om : ℤ) * 60)
            else none
        | _ => none
    else none

/-- Models Python `datetime.fromisoformat` on the profile the importer feeds
it: `YYYY-MM-DD[THH:MM:SS[.f+][±HH:MM]]`, returning seconds since the epoch.
The whole-second part is computed in ℤ and cast; an optional fractional part
is added in ℚ. -/
def parseISO (s : List Char) : Option ℚ := do
  let (y, s) ← readDigits 4 s
  let s ← expectChar '-' s
  let (mo, s) ← readDigits 2 s
  let s ← expectChar '-' s
  let (d, s) ← readDigits 2 s
  if y = 0 ∨ mo = 0 ∨ 12 < mo ∨ d = 0 ∨ daysInMonth (y : ℤ) mo < d then none
  else
    match s with
    | [] => pure ((dateSecondsZ y mo d : ℤ) : ℚ)
    | 'T' :: s => do
      let (h, s) ← readDigits 2 s
      let s ← expectChar ':' s
      let (mi, s) ← readDigits 2 s
      let s ← expectChar ':' s
      let (sec, s) ← readDigits 2 s
      if 23 < h ∨ 59 < mi ∨ 59 < sec then none
      else do
        let (fr, s) ← parseFracPart s
        let off ← parseOffsetPart s
        let whole : ℤ :=
          dateSecondsZ y mo d + (h : ℤ) * 3600 + (mi : ℤ) * 60 + (sec : ℤ) - off
        match fr with
        | none => pure ((whole : ℤ) : ℚ)
        | some f => pure (((whole : ℤ) : ℚ) + f)
    | _ => none

/-- Models the fallback `datetime.strptime(s, "%Y-%m-%dT%H:%M:%SZ")`. -/
def parseStrpZ (s : List Char) : Option ℚ := do
  let (y, s) ← readDigits 4 s
  let s ← expectChar '-' s
  let (mo, s) ← readDigits 2 s
  let s ← expectChar '-' s
  let (d, s) ← readDigits 2 s
  let s ← expectChar 'T' s
  let (h, s) ← readDigits 2 s
  let s ← expectChar ':' s
  let (mi, s) ← readDigits 2 s
  let s ← expectChar ':' s
  let (sec, s) ← readDigits 2 s
  let s ← expectChar 'Z' s
  if s = [] ∧ ¬ (y = 0 ∨ mo = 0 ∨ 12 < mo ∨ d = 0 ∨ daysInMonth (y : ℤ) mo < d)
      ∧ ¬ (23 < h ∨ 59 < mi ∨ 59 < sec) then
    pure ((dateSecondsZ y mo d + (h : ℤ) * 3600 + (mi : ℤ) * 60 + (sec : ℤ) : ℤ) : ℚ)
  else none

/-! ## core/data_engine.py -/

/-- A 3D position; `numpy` float32 triples are modelled as exact rationals. -/
abbrev Vec3 : Type := ℚ × ℚ × ℚ

/-- One trajectory point, as built by `Entity.add_point`. -/
structure TrajPoint where
  position : Vec3
  orientation : Option Vec3
  velocity : Option Vec3
  deriving DecidableEq, Repr

/-- Default trajectory point, used only as the `getD` fallback in statements. -/
def dpt : TrajPoint := { position := (0, 0, 0), orientation := none, velocity := none }

/-- The `Entity` class of core/data_engine.py. -/
structure Entity where
  id : List Char
  name : List Char
  type_name : Option (List Char)
  coalition : Option (List Char)
  trajectory : List TrajPoint
  timestamps : List ℚ
  visible : Bool
  color : Option Vec3
  is_aircraft : Bool
  is_missile : Bool
  is_explosion : Bool
  radius : ℚ
  deriving DecidableEq, Repr

/-- `Entity.__init__`. -/
def Entity.init (id name : List Char) (type_name coalition : Option (List Char)) : Entity :=
  { id := id, name := name, type_name := type_name, coalition := coalition,
    trajectory := [], timestamps := [], visible := true, color := none,
    is_aircraft := false, is_missile := false, is_explosion := false,
    radius := 100 }

/-- `Entity.add_point`: append a timestamp and a trajectory point (the two
parallel lists grow together exactly as in the source). -/
def Entity.add_point (e : Entity) (timestamp : ℚ) (position : Vec3)
    (orientation velocity : Option Vec3) : Entity :=
  { e with
    timestamps := e.timestamps ++ [timestamp],
    trajectory := e.trajectory ++
      [{ position := position, orientation := orientation, velocity := velocity }] }

/-- The bracketing-pair scan of `Entity.get_position_at` (the `for i in
range(len(self.timestamps) - 1)` loop).  The parallel lists are consumed in
lock-step, mirroring the paired indexing `self.timestamps[i]` /
`self.trajectory[i]`; through the class API both lists always have equal
length.  A zero-duration bracket makes Python divide `0.0 / 0.0`, which raises
`ZeroDivisionError`: modelled by `.error ()`. -/
def scanPairs (t : ℚ) : List ℚ → List TrajPoint → Except Unit (Option Vec3)
  | ta :: tb :: ts, pa :: pb :: ps =>
    if ta ≤ t ∧ t ≤ tb then
      if tb - ta = 0 then .error ()
      else .ok (some (pa.position + ((t - ta) / (tb - ta)) • (pb.position - pa.position)))
    else scanPairs t (tb :: ts) (pb :: ps)
  | _, _ => .ok none

/-- `Entity.get_position_at`.  `.ok none` models the Python `return None`,
`.ok (some p)` a returned position, `.error ()` an uncaught exception. -/
def Entity.get_position_at (e : Entity) (t : ℚ) : Except Unit (Option Vec3) :=
  match e.trajectory, e.timestamps with
  | [], _ => .ok none
  | _ :: _, [] => .error ()
  | traj@(_ :: _), ts@(t0 :: _) =>
    if t < t0 then .ok none
    else if t > ts.getLastD t0 then .ok (some ((traj.getLastD dpt).position))
    else scanPairs t ts traj

/-! ### Dictionary model (Python insertion-ordered dict) -/

/-- `d[k] = v` on a Python dict: overwrite in place if the key exists,
otherwise append at the end. -/
def dictSet {α : Type} (d : List (List Char × α)) (k : List Char) (v : α) :
    List (List Char × α) :=
  if (d.find? (fun p => decide (p.1 = k))).isSome then
    d.map (fun p => if p.1 = k then (k, v) else p)
  else d ++ [(k, v)]

/-- `d.get(k)` / `k in d` on a Python dict. -/
def dictGet? {α : Type} (d : List (List Char × α)) (k : List Char) : Option α :=
  (d.find? (fun p => decide (p.1 = k))).map (fun p => p.2)

/-- `del d[k]` on a Python dict. -/
def dictDel {α : Type} (d : List (List Char × α)) (k : List Char) :
    List (List Char × α) :=
  d.filter (fun p => !(decide (p.1 = k)))

/-- `d.values()` on a Python dict. -/
def dictValues {α : Type} (d : List (List Char × α)) : List α :=
  d.map (fun p => p.2)

/-- The `DataEngine` class of core/data_engine.py. -/
structure DataEngine where
  entities : List (List Char × Entity)
  start_time : Option ℚ
  end_time : Option ℚ
  current_time : Option ℚ
  reference_point : Vec3
  deriving DecidableEq, Repr

/-- `DataEngine.__init__`. -/
def DataEngine.init : DataEngine :=
  { entities := [], start_time := none, end_time := none, current_time := none,
    reference_point := (0, 0, 0) }

/-- `DataEngine.add_entity`. -/
def DataEngine.add_entity (eng : DataEngine) (e : Entity) : DataEngine :=
  let entities := dictSet eng.entities e.id e
  let st :=
    match e.timestamps with
    | [] => eng.start_time
    | t0 :: _ =>
      some (match eng.start_time with
            | none => t0
            | some s => if t0 < s then t0 else s)
  let en :=
    match e.timestamps with
    | [] => eng.end_time
    | t0 :: _ =>
      let lastT := e.timestamps.getLastD t0
      some (match eng.end_time with
            | none => lastT
            | some x => if lastT > x then lastT else x)
  let ct :=
    match eng.current_time, st with
    | none, some s => some s
    | c, _ => c
  { eng with entities := entities, start_time := st, end_time := en, current_time := ct }

/-- `DataEngine._recalculate_time_range`. -/
def DataEngine.recalculate_time_range (eng : DataEngine) : DataEngine :=
  let step := fun (acc : Option ℚ × Option ℚ) (e : Entity) =>
    match e.timestamps with
    | [] => acc
    | t0 :: _ =>
      let lastT := e.timestamps.getLastD t0
      (some (match acc.1 with
             | none => t0
             | some s => if t0 < s then t0 else s),
       some (match acc.2 with
             | none => lastT
             | some x => if lastT > x then lastT else x))
  let r := (dictValues eng.entities).foldl step (none, none)
  { eng with start_time := r.1, end_time := r.2 }

/-- `DataEngine.remove_entity`. -/
def DataEngine.remove_entity (eng : DataEngine) (entity_id : List Char) : DataEngine :=
  if (dictGet? eng.entities entity_id).isSome then
    DataEngine.recalculate_time_range { eng with entities := dictDel eng.entities entity_id }
  else eng

/-- `DataEngine.get_time_range`. -/
def DataEngine.get_time_range (eng : DataEngine) : Option ℚ × Option ℚ :=
  (eng.start_time, eng.end_time)

/-! ## myio/acmi_importer.py -/

/-- The external library functions used by the importer.  `geodetic2ned`
stands for `pymap3d.geodetic2ned` applied with the importer's fixed session
reference point (latitude, longitude, altitude → north, east, down), and
`radians` for `math.radians`; both are outside the repository, so all
theorems quantify over them. -/
structure ExtLib where
  geodetic2ned : ℚ → ℚ → ℚ → ℚ × ℚ × ℚ
  radians : ℚ → ℚ

/-- Protocol keyword constants. -/
def fileTypeL : List Char := "FileType=".toList

def refTimeL : List Char := "ReferenceTime=".toList

def hashL : List Char := "#".toList

def nameKey : List Char := "Name=".toList

def typeKey : List Char := "Type=".toList

def radiusKey : List Char := "Radius=".toList

def colorKey : List Char := "Color=".toList

def tKey : List Char := "T=".toList

def explosionL : List Char := "explosion".toList

def aimL : List Char := "AIM".toList

/-- Models `re.search(r'<key>([^,]+)', data)`: the capture of the leftmost
position where `key` is followed by at least one non-comma character; the
capture is the maximal run of non-comma characters.  When the key is followed
immediately by a comma or the end of the string, the regex engine keeps
scanning for a later occurrence, as does this function. -/
def reSearchVal (key : List Char) : List Char → Option (List Char)
  | [] => none
  | s@(_ :: rest) =>
    if beginsWith key s then
      let v := (s.drop key.length).takeWhile (fun c => decide (¬ c = ','))
      if v = [] then reSearchVal key rest else some v
    else reSearchVal key rest

/-- The entity-creation block of `ACMIImporter._parse_entity_data` (run when
`entity_id` has not been seen this session): attribute extraction, defaults
and one-time classification.  In the source the `name and "AIM" in name`
guard always finds `name` truthy because of the `Unknown <id>` fallback, so
only the substring test remains. -/
def createEntity (entity_id data : List Char) : Entity :=
  let nameAttr := reSearchVal nameKey data
  let entity_type := reSearchVal typeKey data
  let radius : Option ℚ :=
    match reSearchVal radiusKey data with
    | none => none
    | some s => some ((parseFloat s).getD 100)
  let name := match nameAttr with
    | none => "Unknown ".toList ++ entity_id
    | some n => n
  let color : Option Vec3 :=
    match reSearchVal colorKey data with
    | none => none
    | some cn =>
      let c := toLowerL cn
      if c = "red".toList then some (1, 0, 0)
      else if c = "blue".toList then some (0, 0, 1)
      else if c = "green".toList then some (0, 1, 0)
      else some (7/10, 7/10, 7/10)
  let base := { Entity.init entity_id name entity_type none with color := color }
  if (match entity_type with
      | some ty => containsSub explosionL (toLowerL ty)
      | none => false) then
    { base with
        is_explosion := true,
        radius := (match radius with
          | none => 300
          | some r => if r = 0 then 300 else r) }
  else if (beginsWith "A".toList entity_id || beginsWith "B".toList entity_id)
      && containsSub aimL name then
    { base with is_missile := true }
  else
    { base with is_aircraft := true }

/-- The position-extraction block of `ACMIImporter._parse_entity_data`: a
`T=` attribute with at least three pipe-delimited numeric fields appends a
sample at `current_time`; any `float()` failure inside the `try` (including
in the optional orientation fields) appends nothing. -/
def applyPosition (lib : ExtLib) (e : Entity) (data : List Char)
    (current_time : Option ℚ) : Entity :=
  match reSearchVal tKey data, current_time with
  | some tv, some ct =>
    let tvals := splitBar tv
    if 3 ≤ tvals.length then
      match parseFloat (tvals.getD 0 []), parseFloat (tvals.getD 1 []),
            parseFloat (tvals.getD 2 []) with
      | some lon_deg, some lat_deg, some alt_m =>
        let ned := lib.geodetic2ned lat_deg lon_deg alt_m
        let x := ned.2.1
        let y := ned.1
        let z := -ned.2.2
        if 6 ≤ tvals.length then
          match parseFloat (tvals.getD 3 []), parseFloat (tvals.getD 4 []),
                parseFloat (tvals.getD 5 []) with
          | some pch, some yaw, some roll =>
            e.add_point ct (x, y, z)
              (some (lib.radians pch, lib.radians yaw, lib.radians roll)) none
          | _, _, _ => e
        else e.add_point ct (x, y, z) none none
      | _, _, _ => e
    else e
  | _, _ => e

/-- `ACMIImporter._parse_entity_data`: fetch or create the entity for the id,
apply the position update, store back into the live dict. -/
def parseEntityData (lib : ExtLib) (entity_id data : List Char)
    (current_time : Option ℚ) (current_entities : List (List Char × Entity)) :
    List (List Char × Entity) :=
  let e := match dictGet? current_entities entity_id with
    | none => createEntity entity_id data
    | some e0 => e0
  dictSet current_entities entity_id (applyPosition lib e data current_time)

/-- The per-line state of `ACMIImporter._parse_data`. -/
structure ParseState where
  current_entities : List (List Char × Entity)
  current_time : Option ℚ
  data_start : Bool
  deriving Repr

/-- The initial `_parse_data` state. -/
def initState : ParseState :=
  { current_entities := [], current_time := none, data_start := false }

/-- One iteration of the `for line in lines` loop of
`ACMIImporter._parse_data`.  `.error ()` models the uncaught `TypeError`
raised by `None + timedelta(...)` when a parsable time-frame line arrives
while `reference_time` is `None` (the surrounding handler only catches
`ValueError`); every other failure on a line is caught in the source and
leaves that line skipped. -/
def stepLine (lib : ExtLib) (reference_time : Option ℚ) (st : ParseState)
    (rawLine : List Char) : Except Unit ParseState :=
  let line := stripL rawLine
  if line = [] then .ok st
  else
    let ds := st.data_start || beginsWith hashL line
    if ds = false then .ok st
    else if beginsWith hashL line then
      match parseFloat (stripL (line.drop 1)) with
      | none => .ok { st with data_start := ds }
      | some off =>
        match reference_time with
        | none => .error ()
        | some rt =>
          .ok { st with data_start := ds, current_time := some (rt + off) }
    else if (',' ∈ line) ∧ ('=' ∈ line) then
      let entity_id := line.takeWhile (fun c => decide (¬ c = ','))
      let rest := line.drop (entity_id.length + 1)
      .ok { st with
            data_start := ds,
            current_entities := parseEntityData lib entity_id rest st.current_time
              st.current_entities }
    else .ok { st with data_start := ds }

/-- The line loop of `ACMIImporter._parse_data`. -/
def runLines (lib : ExtLib) (reference_time : Option ℚ) :
    ParseState → List (List Char) → Except Unit ParseState
  | st, [] => .ok st
  | st, l :: ls =>
    match stepLine lib reference_time st l with
    | .error u => .error u
    | .ok st' => runLines lib reference_time st' ls

/-- The finalization loop of `ACMIImporter._parse_data`: every live entity
with a non-empty trajectory is added to the data engine. -/
def finalize (eng : DataEngine) (st : ParseState) : DataEngine :=
  (dictValues st.current_entities).foldl
    (fun acc e => if e.trajectory = [] then acc else acc.add_entity e) eng

/-- `ACMIImporter._parse_data`. -/
def parseData (lib : ExtLib) (reference_time : Option ℚ) (eng : DataEngine)
    (lines : List (List Char)) : Except Unit DataEngine :=
  match runLines lib reference_time initState lines with
  | .error u => .error u
  | .ok st => .ok (finalize eng st)

/-- The first-line validation of `ACMIImporter._parse_header`: strip, drop a
leading BOM (the source removes every BOM character once one leads), slide to
an embedded `FileType=` if the line does not start with it, then require the
`FileType=` marker and an `acmi` (case-insensitive) family. -/
def checkFirstLine (l : List Char) : Bool :=
  let f0 := stripL l
  let f1 := if beginsWith ['\uFEFF'] f0 then f0.filter (fun c => decide (¬ c = '\uFEFF'))
            else f0
  let f2 := if ¬ f1 = [] ∧ beginsWith fileTypeL f1 = false ∧ containsSub fileTypeL f1 = true
            then dropBeforeSub fileTypeL f1 else f1
  beginsWith fileTypeL f2 && containsSub "acmi".toList (toLowerL f2)

/-- A reference-time value parse: `fromisoformat` after replacing `Z` with
`+00:00`, falling back to the strict `%Y-%m-%dT%H:%M:%SZ` format. -/
def parseRefValue (ts : List Char) : Option ℚ :=
  match parseISO (replaceZ ts) with
  | some v => some v
  | none => parseStrpZ ts

/-- The reference-time loop of `ACMIImporter._parse_header`: each line
containing `ReferenceTime=` re-parses (an unparsable value makes the header
fail); the first line starting with `#` ends the header successfully with the
reference time gathered so far (possibly still absent). -/
def headerLoop (rt : Option ℚ) : List (List Char) → Option (Option ℚ)
  | [] => none
  | l :: ls =>
    let line := stripL l
    if containsSub refTimeL line then
      match afterFirstSub refTimeL line with
      | none => none
      | some afterKey =>
        let time_str := stripL (upToNextSub refTimeL afterKey)
        match parseRefValue time_str with
        | none => none
        | some v =>
          if beginsWith hashL line then some (some v)
          else headerLoop (some v) ls
    else if beginsWith hashL line then some rt
    else headerLoop rt ls

/-- `ACMIImporter._parse_header`: `none` models `return False`; `some rt`
models `return True` with `self.reference_time = rt` (which can itself still
be `None` when no `ReferenceTime=` line preceded the first `#` line). -/
def parseHeader (lines : List (List Char)) : Option (Option ℚ) :=
  match lines with
  | [] => none
  | l0 :: _ => if checkFirstLine l0 then headerLoop none lines else none

/-- `ACMIImporter.import_file` on the already-read list of lines: header
failure or an uncaught exception inside `_parse_data` returns `False` with
the engine untouched (entities are only added during finalization, which a
raised exception never reaches); otherwise `True` with the finalized engine. -/
def importFile (lib : ExtLib) (eng : DataEngine) (lines : List (List Char)) :
    Bool × DataEngine :=
  match parseHeader lines with
  | none => (false, eng)
  | some rt =>
    match parseData lib rt eng lines with
    | .error _ => (false, eng)
    | .ok eng' => (true, eng')

/-! ## Helper lemmas about list access -/

lemma getD_irrel {α : Type} (l : List α) (i : ℕ) (h : i < l.length) (d1 d2 : α) :
    l.getD i d1 = l.getD i d2 := by
  rw [List.getD_eq_get _ _ h, List.getD_eq_get _ _ h]

lemma getLastD_eq_getD {α : Type} (l : List α) (d : α) (h : l ≠ []) :
    l.getLastD d = l.getD (l.length - 1) d := by
  induction l generalizing d with
  | nil => exact absurd rfl h
  | cons a l ih =>
    cases l with
    | nil => rfl
    | cons b m =>
      rw [List.getLastD_cons, ih a (by simp)]
      have h1 : m.length < (b :: m).length := by simp
      have h2 : m.length + 1 < (a :: b :: m).length := by simp
      calc (b :: m).getD ((b :: m).length - 1) a
          = (b :: m).getD m.length a := by simp
        _ = (b :: m).getD m.length d := getD_irrel _ _ h1 _ _
        _ = (a :: b :: m).getD (m.length + 1) d := (List.getD_cons_succ ..).symm
        _ = (a :: b :: m).getD ((a :: b :: m).length - 1) d := by simp

lemma pairwiseLe_getD (l : List ℚ) (h : l.Pairwise (· ≤ ·)) {i j : ℕ} (hij : i ≤ j)
    (hj : j < l.length) : l.getD i 0 ≤ l.getD j 0 := by
  rcases eq_or_lt_of_le hij with rfl | hlt
  · exact le_refl _
  · have hi : i < l.length := lt_trans hlt hj
    rw [List.getD_eq_get _ _ hi, List.getD_eq_get _ _ hj]
    exact List.pairwise_iff_get.mp h ⟨i, hi⟩ ⟨j, hj⟩ hlt

lemma chainLe_getD (l : List ℚ) (h : l.Chain' (· ≤ ·)) {i j : ℕ} (hij : i ≤ j)
    (hj : j < l.length) : l.getD i 0 ≤ l.getD j 0 :=
  pairwiseLe_getD l (List.chain'_iff_pairwise.mp h) hij hj

/-! ## Helper lemmas about the bracketing scan -/

/-- When the query time lies between the head and the last timestamp of a
strictly increasing list, the scan selects the first bracketing pair and
returns the linear interpolation between its two samples. -/
lemma scanPairs_bracket (t : ℚ) :
    ∀ (ts : List ℚ) (traj : List TrajPoint),
      ts.length = traj.length → ts.Chain' (· < ·) →
      ts.getD 0 0 ≤ t → t ≤ ts.getD (ts.length - 1) 0 → 2 ≤ ts.length →
      ∃ i, i + 1 < ts.length ∧
        ts.getD i 0 ≤ t ∧ t ≤ ts.getD (i + 1) 0 ∧ ts.getD i 0 < ts.getD (i + 1) 0 ∧
        scanPairs t ts traj =
          .ok (some ((traj.getD i dpt).position +
            ((t - ts.getD i 0) / (ts.getD (i + 1) 0 - ts.getD i 0)) •
              ((traj.getD (i + 1) dpt).position - (traj.getD i dpt).position))) := by
  intro ts
  induction ts with
  | nil => intro traj _ _ _ _ h2; simp at h2
  | cons a ts' ih =>
    intro traj hlen hch h0 hl h2
    cases ts' with
    | nil => simp at h2
    | cons b ts'' =>
      obtain ⟨pa, traj1, rfl⟩ : ∃ pa traj1, traj = pa :: traj1 := by
        cases traj with
        | nil => simp at hlen
        | cons x xs => exact ⟨x, xs, rfl⟩
      obtain ⟨pb, traj2, rfl⟩ : ∃ pb traj2, traj1 = pb :: traj2 := by
        cases traj1 with
        | nil => simp at hlen
        | cons x xs => exact ⟨x, xs, rfl⟩
      have hab : a < b := (List.chain'_cons.mp hch).1
      have ha : a ≤ t := by simpa using h0
      by_cases hc : t ≤ b
      · refine ⟨0, by simp, by simpa using ha, by simpa using hc, by simpa using hab, ?_⟩
        have hne : ¬ b - a = 0 := sub_ne_zero.mpr (ne_of_gt hab)
        simp only [scanPairs, if_pos (And.intro ha hc), if_neg hne]
        simp
      · push_neg at hc
        cases ts'' with
        | nil =>
          simp at hl
          exact absurd hl (not_le.mpr hc)
        | cons c ts₃ =>
          have hstep : scanPairs t (a :: b :: c :: ts₃) (pa :: pb :: traj2) =
              scanPairs t (b :: c :: ts₃) (pb :: traj2) := by
            simp only [scanPairs]
            rw [if_neg (by intro hh; exact absurd hh.2 (not_le.mpr hc))]
          have hlen' : (b :: c :: ts₃).length = (pb :: traj2).length := by
            simpa using hlen
          have hch' : (b :: c :: ts₃).Chain' (· < ·) := (List.chain'_cons.mp hch).2
          have h0' : (b :: c :: ts₃).getD 0 0 ≤ t := by simpa using le_of_lt hc
          have hl' : t ≤ (b :: c :: ts₃).getD ((b :: c :: ts₃).length - 1) 0 := by
            simpa using hl
          obtain ⟨i, hi, hle1, hle2, hlt12, hres⟩ :=
            ih (pb :: traj2) hlen' hch' h0' hl' (by simp)
          refine ⟨i + 1, by simpa using hi, by simpa using hle1, by simpa using hle2,
            by simpa using hlt12, ?_⟩
          rw [hstep, hres]
          simp

/-- When index `k ≥ 1` is the first position whose timestamp equals `t`
(its predecessor is strictly smaller), the scan of a non-decreasing list
stops at the pair `(k-1, k)`, the interpolation factor collapses to `1`, and
the position of sample `k` is returned. -/
lemma scanPairs_first_eq (t : ℚ) :
    ∀ (ts : List ℚ) (traj : List TrajPoint) (k : ℕ),
      ts.length = traj.length → ts.Chain' (· ≤ ·) →
      1 ≤ k → k < ts.length →
      ts.getD (k - 1) 0 < t → ts.getD k 0 = t →
      scanPairs t ts traj = .ok (some ((traj.getD k dpt).position)) := by
  intro ts
  induction ts with
  | nil => intro traj k _ _ _ hk; simp at hk
  | cons a ts' ih =>
    intro traj k hlen hch h1 hk hprev heq
    cases ts' with
    | nil => simp at hk; omega
    | cons b ts'' =>
      obtain ⟨pa, traj1, rfl⟩ : ∃ pa traj1, traj = pa :: traj1 := by
        cases traj with
        | nil => simp at hlen
        | cons x xs => exact ⟨x, xs, rfl⟩
      obtain ⟨pb, traj2, rfl⟩ : ∃ pb traj2, traj1 = pb :: traj2 := by
        cases traj1 with
        | nil => simp at hlen
        | cons x xs => exact ⟨x, xs, rfl⟩
      match k, h1 with
      | 1, _ =>
        have ha : a < t := by simpa using hprev
        have hb : b = t := by simpa using heq
        have hcond : a ≤ t ∧ t ≤ b := ⟨le_of_lt ha, le_of_eq hb.symm⟩
        have hne : ¬ b - a = 0 := sub_ne_zero.mpr (by rw [hb]; exact ne_of_gt ha)
        have hfac : (t - a) / (b - a) = 1 := by
          rw [hb]; exact div_self (sub_ne_zero.mpr (ne_of_gt ha))
        simp only [scanPairs, if_pos hcond, if_neg hne, hfac, one_smul]
        simp [add_sub_cancel]
      | (k' + 2), _ =>
        have hble : b ≤ (a :: b :: ts'').getD (k' + 1) 0 := by
          have := chainLe_getD (a :: b :: ts'') hch (i := 1) (j := k' + 1)
            (by omega) (by omega)
          simpa using this
        have hbt : b < t := lt_of_le_of_lt (by simpa using hble) (by simpa using hprev)
        have hstep : scanPairs t (a :: b :: ts'') (pa :: pb :: traj2) =
            scanPairs t (b :: ts'') (pb :: traj2) := by
          simp only [scanPairs]
          rw [if_neg (by intro hh; exact absurd hh.2 (not_le.mpr hbt))]
        rw [hstep]
        have hres := ih (pb :: traj2) (k' + 1) (by simpa using hlen)
          (List.chain'_cons.mp hch).2 (by omega) (by simp at hk ⊢; omega)
          (by simpa using hprev) (by simpa using heq)
        rw [hres]
        simp

/-! ## Concrete entities used by witnesses and counterexamples -/

/-- A two-sample entity with strictly increasing timestamps. -/
def wEnt2 : Entity :=
  ((Entity.init "E".toList "E".toList none none).add_point 0 (0, 0, 0) none none).add_point
    10 (10, 20, 30) none none

/-- A single-sample entity. -/
def wEnt1 : Entity :=
  (Entity.init "E".toList "E".toList none none).add_point 0 (1, 2, 3) none none

/-- An entity with two consecutive samples sharing timestamp 5. -/
def wEntTie : Entity :=
  ((((Entity.init "E".toList "E".toList none none).add_point 0 (0, 0, 0) none
    none).add_point 5 (1, 1, 1) none none).add_point 5 (2, 2, 2) none
    none).add_point 10 (3, 3, 3) none none

/-- Entity A with sample span [10, 50]. -/
def entA : Entity :=
  ((Entity.init "A".toList "RedA".toList none none).add_point 10 (0, 0, 0) none
    none).add_point 50 (0, 0, 0) none none

/-- Entity B with sample span [5, 40]. -/
def entB : Entity :=
  ((Entity.init "B".toList "BlueB".toList none none).add_point 5 (0, 0, 0) none
    none).add_point 40 (0, 0, 0) none none

/-! ## C1 -/

/-- C1: for an entity with strictly increasing sample timestamps and a query
time strictly between the first and last timestamps, `get_position_at`
selects a bracketing pair `(i, i+1)` with `timestamp[i] ≤ t ≤ timestamp[i+1]`
and returns `pos[i] + f • (pos[i+1] - pos[i])` with
`f = (t - timestamp[i]) / (timestamp[i+1] - timestamp[i])`; since `0 ≤ f ≤ 1`
the returned point lies on the segment between the two bracketing samples. -/
theorem c1_interpolation_on_bracket (e : Entity) (t : ℚ)
    (hlen : e.timestamps.length = e.trajectory.length)
    (hsorted : e.timestamps.Chain' (· < ·))
    (hfirst : e.timestamps.getD 0 0 < t)
    (hlast : t < e.timestamps.getLastD 0) :
    ∃ i, i + 1 < e.timestamps.length ∧
      e.timestamps.getD i 0 ≤ t ∧ t ≤ e.timestamps.getD (i + 1) 0 ∧
      0 ≤ (t - e.timestamps.getD i 0) / (e.timestamps.getD (i + 1) 0 - e.timestamps.getD i 0) ∧
      (t - e.timestamps.getD i 0) / (e.timestamps.getD (i + 1) 0 - e.timestamps.getD i 0) ≤ 1 ∧
      e.get_position_at t =
        .ok (some ((e.trajectory.getD i dpt).position +
          ((t - e.timestamps.getD i 0) / (e.timestamps.getD (i + 1) 0 - e.timestamps.getD i 0)) •
            ((e.trajectory.getD (i + 1) dpt).position - (e.trajectory.getD i dpt).position))) := by
  rcases hts : e.timestamps with _ | ⟨t0, tl⟩
  · rw [hts] at hfirst hlast
    simp [List.getD] at hfirst hlast
    exact absurd (lt_trans hfirst hlast) (lt_irrefl 0)
  rcases htr : e.trajectory with _ | ⟨p0, pl⟩
  · rw [hts, htr] at hlen; simp at hlen
  rw [hts] at hsorted hfirst hlast
  rw [hts, htr] at hlen
  have hfirst' : t0 < t := by simpa using hfirst
  have hlastD : (t0 :: tl).getLastD 0 = (t0 :: tl).getD ((t0 :: tl).length - 1) 0 :=
    getLastD_eq_getD _ _ (by simp)
  have hlast' : t < (t0 :: tl).getD ((t0 :: tl).length - 1) 0 := by
    rw [← hlastD]; exact hlast
  have h2 : 2 ≤ (t0 :: tl).length := by
    cases tl with
    | nil =>
      simp at hlast'
      exact absurd (lt_trans hfirst' hlast') (lt_irrefl t0)
    | cons b m => simp
  have hpos : e.get_position_at t = scanPairs t (t0 :: tl) (p0 :: pl) := by
    rw [Entity.get_position_at, hts, htr]
    have hnl : ¬ t < t0 := not_lt.mpr (le_of_lt hfirst')
    have hgl : ¬ t > (t0 :: tl).getLastD t0 := by
      have : (t0 :: tl).getLastD t0 = (t0 :: tl).getLastD 0 := by
        rw [List.getLastD_cons, List.getLastD_cons]
      rw [this]
      exact not_lt.mpr (le_of_lt hlast)
    simp only [if_neg hnl, if_neg hgl]
  obtain ⟨i, hi, hb1, hb2, hb3, hres⟩ :=
    scanPairs_bracket t (t0 :: tl) (p0 :: pl) hlen hsorted (le_of_lt hfirst')
      (le_of_lt hlast') h2
  rw [hpos]
  refine ⟨i, hi, hb1, hb2, ?_, ?_, hres⟩
  · exact div_nonneg (sub_nonneg.mpr hb1) (le_of_lt (sub_pos.mpr hb3))
  · rw [div_le_one (sub_pos.mpr hb3)]
    linarith

/-- C1 witness: the theorem applied to a concrete two-sample entity at `t = 4`. -/
theorem c1_interpolation_on_bracket_witness :
    ∃ i, i + 1 < wEnt2.timestamps.length ∧
      wEnt2.timestamps.getD i 0 ≤ 4 ∧ (4:ℚ) ≤ wEnt2.timestamps.getD (i + 1) 0 ∧
      0 ≤ ((4:ℚ) - wEnt2.timestamps.getD i 0) /
        (wEnt2.timestamps.getD (i + 1) 0 - wEnt2.timestamps.getD i 0) ∧
      ((4:ℚ) - wEnt2.timestamps.getD i 0) /
        (wEnt2.timestamps.getD (i + 1) 0 - wEnt2.timestamps.getD i 0) ≤ 1 ∧
      wEnt2.get_position_at 4 =
        .ok (some ((wEnt2.trajectory.getD i dpt).position +
          (((4:ℚ) - wEnt2.timestamps.getD i 0) /
            (wEnt2.timestamps.getD (i + 1) 0 - wEnt2.timestamps.getD i 0)) •
            ((wEnt2.trajectory.getD (i + 1) dpt).position -
              (wEnt2.trajectory.getD i dpt).position))) :=
  c1_interpolation_on_bracket wEnt2 4 (by decide)
    (by norm_num [wEnt2, Entity.add_point, Entity.init]) (by decide) (by decide)

/-! ## C2 -/

/-- C2 counterexample: a single-sample entity queried at exactly its (last)
timestamp satisfies `t ≥ last_timestamp`, yet `get_position_at` returns the
absent result `ok none`, not the last sample's position — refuting the claim
at this input. -/
theorem c2_counterexample :
    (0:ℚ) ≥ wEnt1.timestamps.getLastD 0 ∧
    wEnt1.get_position_at 0 = .ok none ∧
    (none : Option Vec3) ≠ some ((wEnt1.trajectory.getLastD dpt).position) := by
  refine ⟨by decide, by rfl, by decide⟩

/-- C2 amended: with non-decreasingly timestamped samples, `get_position_at`
returns exactly the last sample's position for every `t` strictly after the
last timestamp; for `t` equal to the last timestamp this still holds provided
the entity has at least two samples and the final two timestamps are distinct
(a single-sample entity queried at exactly its timestamp instead reports
absent, per the counterexample). -/
theorem c2_clamp_after_last (e : Entity) (t : ℚ)
    (hlen : e.timestamps.length = e.trajectory.length)
    (hsorted : e.timestamps.Chain' (· ≤ ·))
    (hne : e.timestamps ≠ []) :
    (e.timestamps.getLastD 0 < t →
      e.get_position_at t = .ok (some ((e.trajectory.getLastD dpt).position))) ∧
    (t = e.timestamps.getLastD 0 → 2 ≤ e.timestamps.length →
      e.timestamps.getD (e.timestamps.length - 2) 0 <
        e.timestamps.getD (e.timestamps.length - 1) 0 →
      e.get_position_at t = .ok (some ((e.trajectory.getLastD dpt).position))) := by
  rcases hts : e.timestamps with _ | ⟨t0, tl⟩
  · exact absurd hts hne
  rcases htr : e.trajectory with _ | ⟨p0, pl⟩
  · rw [hts, htr] at hlen; simp at hlen
  rw [hts] at hsorted
  rw [hts, htr] at hlen
  have hlastD : (t0 :: tl).getLastD 0 = (t0 :: tl).getD ((t0 :: tl).length - 1) 0 :=
    getLastD_eq_getD _ _ (by simp)
  have h0le : t0 ≤ (t0 :: tl).getLastD 0 := by
    rw [hlastD]
    have := chainLe_getD (t0 :: tl) hsorted (i := 0) (j := (t0 :: tl).length - 1)
      (Nat.zero_le _) (by simp)
    simpa using this
  have hdflt : (t0 :: tl).getLastD t0 = (t0 :: tl).getLastD 0 := by
    rw [List.getLastD_cons, List.getLastD_cons]
  constructor
  · intro hgt
    have hnl : ¬ t < t0 := not_lt.mpr (le_trans h0le (le_of_lt hgt))
    have hgt' : t > (t0 :: tl).getLastD t0 := by rw [hdflt]; exact hgt
    rw [Entity.get_position_at, hts, htr]
    simp only [if_neg hnl, if_pos hgt']
  · intro heq h2 hdist
    have hk1 : 1 ≤ tl.length := by simpa using h2
    have hklen : (t0 :: tl).length - 1 = tl.length := by simp
    have hkeq : (t0 :: tl).getD tl.length 0 = t := by
      rw [← hklen, ← hlastD]; exact heq.symm
    have hkprev : (t0 :: tl).getD (tl.length - 1) 0 < t := by
      have : (t0 :: tl).length - 2 = tl.length - 1 := by simp
      rw [this, hklen] at hdist
      rw [hkeq] at hdist
      exact hdist
    have hscan := scanPairs_first_eq t (t0 :: tl) (p0 :: pl) tl.length hlen hsorted
      hk1 (by simp) hkprev hkeq
    have hnl : ¬ t < t0 := not_lt.mpr (by rw [heq]; exact h0le)
    have hgl : ¬ t > (t0 :: tl).getLastD t0 := by
      rw [hdflt, heq]; exact lt_irrefl _
    rw [Entity.get_position_at, hts, htr]
    simp only [if_neg hnl, if_neg hgl]
    rw [hscan]
    have hplen : pl.length = tl.length := by simpa using hlen.symm
    have htrlast : (p0 :: pl).getD tl.length dpt = (p0 :: pl).getLastD dpt := by
      rw [getLastD_eq_getD _ _ (by simp)]
      congr 1
      simp [hplen]
    rw [htrlast]

/-- C2 witness: the amended theorem applied to a concrete two-sample entity
at `t = 11`, strictly after its last timestamp 10. -/
theorem c2_clamp_after_last_witness :
    wEnt2.get_position_at 11 = .ok (some ((wEnt2.trajectory.getLastD dpt).position)) :=
  (c2_clamp_after_last wEnt2 11 (by decide)
    (by norm_num [wEnt2, Entity.add_point, Entity.init]) (by decide)).1 (by decide)

/-! ## C3 -/

/-- C3: for an entity whose samples are non-decreasing in time and contain a
consecutive pair `(k, k+1)` of equal timestamps `t` (with `k` the first index
holding `t`, its predecessor strictly smaller), `get_position_at` at `t` does
not fail — the zero-duration bracket is never divided through — and the first
bracketing sample's position `pos[k]` is returned. -/
theorem c3_equal_timestamps_no_failure (e : Entity) (t : ℚ) (k : ℕ)
    (hlen : e.timestamps.length = e.trajectory.length)
    (hsorted : e.timestamps.Chain' (· ≤ ·))
    (hk1 : 1 ≤ k) (hk : k + 1 < e.timestamps.length)
    (hprev : e.timestamps.getD (k - 1) 0 < e.timestamps.getD k 0)
    (htie : e.timestamps.getD k 0 = t)
    (htie2 : e.timestamps.getD (k + 1) 0 = t) :
    e.get_position_at t = .ok (some ((e.trajectory.getD k dpt).position)) := by
  rcases hts : e.timestamps with _ | ⟨t0, tl⟩
  · rw [hts] at hk; simp at hk
  rcases htr : e.trajectory with _ | ⟨p0, pl⟩
  · rw [hts, htr] at hlen; simp at hlen
  rw [hts] at hsorted hk hprev htie htie2
  rw [hts, htr] at hlen
  have hkl : k < (t0 :: tl).length := by omega
  have h0le : t0 ≤ t := by
    have := chainLe_getD (t0 :: tl) hsorted (i := 0) (j := k) (Nat.zero_le _) hkl
    rw [htie] at this
    simpa using this
  have hlastge : t ≤ (t0 :: tl).getLastD 0 := by
    rw [getLastD_eq_getD _ _ (by simp)]
    have := chainLe_getD (t0 :: tl) hsorted (i := k + 1) (j := (t0 :: tl).length - 1)
      (by omega) (by simp)
    rw [htie2] at this
    exact this
  rw [Entity.get_position_at, hts, htr]
  have hnl : ¬ t < t0 := not_lt.mpr h0le
  have hgl : ¬ t > (t0 :: tl).getLastD t0 := by
    rw [List.getLastD_cons]
    rw [List.getLastD_cons] at hlastge
    exact not_lt.mpr hlastge
  simp only [if_neg hnl, if_neg hgl]
  exact scanPairs_first_eq t (t0 :: tl) (p0 :: pl) k hlen hsorted hk1 hkl
    (by rw [htie] at hprev; exact hprev) htie

/-- C3 witness: the theorem applied to a concrete entity with two consecutive
samples at timestamp 5, queried at `t = 5`. -/
theorem c3_equal_timestamps_no_failure_witness :
    wEntTie.get_position_at 5 = .ok (some ((wEntTie.trajectory.getD 1 dpt).position)) :=
  c3_equal_timestamps_no_failure wEntTie 5 1 (by decide)
    (by norm_num [wEntTie, Entity.add_point, Entity.init]) (by decide)
    (by decide) (by decide) (by decide) (by decide)

/-! ## C5 -/

/-- C5: adding entity A (span [10, 50]) and entity B (span [5, 40]) to an
empty registry yields cached time bounds (5, 50); removing A then recomputes
the bounds from the remaining entities, yielding exactly (5, 40). -/
theorem c5_registry_time_bounds :
    ((DataEngine.init.add_entity entA).add_entity entB).get_time_range =
      (some 5, some 50) ∧
    (((DataEngine.init.add_entity entA).add_entity entB).remove_entity
      "A".toList).get_time_range = (some 5, some 40) := by
  constructor
  · decide
  · decide

/-! ## C10 -/

/-- C10: `add_entity` never shrinks the cached time bounds — whenever both
bounds are set, the start bound after an add is at most the old start bound
and the end bound is at least the old end bound, for every added entity
(including one overwriting an existing id with a narrower span). -/
theorem c10_add_entity_bounds_monotone (eng : DataEngine) (e : Entity) (s en : ℚ)
    (hs : eng.start_time = some s) (he : eng.end_time = some en) :
    ∃ s' en', (eng.add_entity e).start_time = some s' ∧
      (eng.add_entity e).end_time = some en' ∧ s' ≤ s ∧ en ≤ en' := by
  cases h : e.timestamps with
  | nil =>
    refine ⟨s, en, ?_, ?_, le_refl _, le_refl _⟩ <;>
      simp [DataEngine.add_entity, h, hs, he]
  | cons t0 tl =>
    refine ⟨if t0 < s then t0 else s,
      if (t0 :: tl).getLastD t0 > en then (t0 :: tl).getLastD t0 else en, ?_, ?_, ?_, ?_⟩
    · simp [DataEngine.add_entity, h, hs]
    · simp [DataEngine.add_entity, h, he]
    · split_ifs with hlt
      · exact le_of_lt hlt
      · exact le_refl s
    · split_ifs with hgt
      · exact le_of_lt hgt
      · exact le_refl en

/-- C10 witness: applying the theorem to a registry with bounds (10, 50) and
a further added entity; the resulting bounds contain the old ones. -/
theorem c10_add_entity_bounds_monotone_witness :
    ∃ s' en', ((DataEngine.init.add_entity entA).add_entity entB).start_time = some s' ∧
      ((DataEngine.init.add_entity entA).add_entity entB).end_time = some en' ∧
      s' ≤ 10 ∧ (50:ℚ) ≤ en' :=
  c10_add_entity_bounds_monotone (DataEngine.init.add_entity entA) entB 10 50
    (by decide) (by decide)

/-! ## Dictionary lemmas -/

lemma dictGet?_cons_pos {α : Type} (p : List Char × α) (d : List (List Char × α))
    (k : List Char) (h : p.1 = k) : dictGet? (p :: d) k = some p.2 := by
  unfold dictGet?
  rw [List.find?_cons_of_pos _ (by simp [h])]
  rfl

lemma dictGet?_cons_neg {α : Type} (p : List Char × α) (d : List (List Char × α))
    (k : List Char) (h : ¬ p.1 = k) : dictGet? (p :: d) k = dictGet? d k := by
  unfold dictGet?
  rw [List.find?_cons_of_neg _ (by simp [h])]

lemma dictGet?_mapSet_self {α : Type} (k : List Char) (v : α) :
    ∀ d : List (List Char × α),
      (List.find? (fun p => decide (p.1 = k)) d).isSome = true →
      dictGet? (d.map (fun p => if p.1 = k then (k, v) else p)) k = some v := by
  intro d
  induction d with
  | nil => intro h; simp [List.find?] at h
  | cons p d ih =>
    intro h
    by_cases hp : p.1 = k
    · rw [List.map_cons, if_pos hp, dictGet?_cons_pos _ _ _ rfl]
    · rw [List.find?_cons_of_neg _ (by simp [hp])] at h
      rw [List.map_cons, if_neg hp, dictGet?_cons_neg _ _ _ hp]
      exact ih h

lemma dictGet?_append_self {α : Type} (k : List Char) (v : α) :
    ∀ d : List (List Char × α), dictGet? d k = none →
      dictGet? (d ++ [(k, v)]) k = some v := by
  intro d
  induction d with
  | nil => intro _; rw [List.nil_append, dictGet?_cons_pos _ _ _ rfl]
  | cons p d ih =>
    intro h
    by_cases hp : p.1 = k
    · rw [dictGet?_cons_pos _ _ _ hp] at h; cases h
    · rw [dictGet?_cons_neg _ _ _ hp] at h
      rw [List.cons_append, dictGet?_cons_neg _ _ _ hp]
      exact ih h

/-- After `d[k] = v`, looking up `k` yields `v`. -/
lemma dictGet?_dictSet_self {α : Type} (d : List (List Char × α)) (k : List Char) (v : α) :
    dictGet? (dictSet d k v) k = some v := by
  unfold dictSet
  by_cases h : (List.find? (fun p => decide (p.1 = k)) d).isSome = true
  · rw [if_pos h]
    exact dictGet?_mapSet_self k v d h
  · rw [if_neg h]
    refine dictGet?_append_self k v d ?_
    unfold dictGet?
    rcases hf : List.find? (fun p => decide (p.1 = k)) d with _ | p
    · rw [hf]; rfl
    · rw [hf] at h; simp at h

lemma dictGet?_mapSet_ne {α : Type} (k k' : List Char) (v : α) (hne : ¬ k' = k) :
    ∀ d : List (List Char × α),
      dictGet? (d.map (fun p => if p.1 = k then (k, v) else p)) k' = dictGet? d k' := by
  intro d
  induction d with
  | nil => rfl
  | cons p d ih =>
    by_cases hp : p.1 = k
    · rw [List.map_cons, if_pos hp,
        dictGet?_cons_neg (k, v) _ k' (fun hh => hne hh.symm),
        dictGet?_cons_neg p d k' (by rw [hp]; exact fun hh => hne hh.symm)]
      exact ih
    · rw [List.map_cons, if_neg hp]
      by_cases hp' : p.1 = k'
      · rw [dictGet?_cons_pos _ _ _ hp', dictGet?_cons_pos _ _ _ hp']
      · rw [dictGet?_cons_neg _ _ _ hp', dictGet?_cons_neg _ _ _ hp']
        exact ih

lemma dictGet?_append_ne {α : Type} (k k' : List Char) (v : α) (hne : ¬ k' = k) :
    ∀ d : List (List Char × α), dictGet? (d ++ [(k, v)]) k' = dictGet? d k' := by
  intro d
  induction d with
  | nil =>
    rw [List.nil_append, dictGet?_cons_neg _ _ _ (fun hh => hne hh.symm)]
  | cons p d ih =>
    by_cases hp : p.1 = k'
    · rw [List.cons_append, dictGet?_cons_pos _ _ _ hp, dictGet?_cons_pos _ _ _ hp]
    · rw [List.cons_append, dictGet?_cons_neg _ _ _ hp, dictGet?_cons_neg _ _ _ hp]
      exact ih

/-- After `d[k] = v`, looking up a different key is unchanged. -/
lemma dictGet?_dictSet_ne {α : Type} (d : List (List Char × α)) (k k' : List Char)
    (v : α) (hne : ¬ k' = k) :
    dictGet? (dictSet d k v) k' = dictGet? d k' := by
  unfold dictSet
  split_ifs with h
  · exact dictGet?_mapSet_ne k k' v hne d
  · exact dictGet?_append_ne k k' v hne d

/-- Membership after `d[k] = v`: either an old pair or the new binding. -/
lemma mem_dictSet {α : Type} (k : List Char) (v : α) :
    ∀ (d : List (List Char × α)) (p : List Char × α),
      p ∈ dictSet d k v → p ∈ d ∨ p = (k, v) := by
  unfold dictSet
  intro d p
  split_ifs with h
  · intro hp
    rcases List.mem_map.mp hp with ⟨q, hq, hfq⟩
    by_cases hqk : q.1 = k
    · right; rw [← hfq]; simp [hqk]
    · left; rw [← hfq]; simp only [if_neg hqk]; exact hq
  · intro hp
    rcases List.mem_append.mp hp with h1 | h2
    · left; exact h1
    · right; simpa using h2

/-! ## Importer step lemmas -/

/-- `applyPosition` either returns the entity unchanged or appends exactly
one sample at the current record time (so only when a current time is set). -/
lemma applyPosition_cases (lib : ExtLib) (e : Entity) (data : List Char) (ct : Option ℚ) :
    applyPosition lib e data ct = e ∨
    ∃ c p o, ct = some c ∧ applyPosition lib e data ct = e.add_point c p o none := by
  unfold applyPosition
  rcases hT : reSearchVal tKey data with _ | tv
  · left; cases ct <;> rfl
  · cases ct with
    | none => left; rfl
    | some c =>
      by_cases h3 : 3 ≤ (splitBar tv).length
      · simp only [if_pos h3]
        rcases hp0 : parseFloat ((splitBar tv).getD 0 []) with _ | a
        · left; simp [hp0]
        rcases hp1 : parseFloat ((splitBar tv).getD 1 []) with _ | b
        · left; simp [hp0, hp1]
        rcases hp2 : parseFloat ((splitBar tv).getD 2 []) with _ | c2
        · left; simp [hp0, hp1, hp2]
        by_cases h6 : 6 ≤ (splitBar tv).length
        · simp only [hp0, hp1, hp2, if_pos h6]
          rcases hp3 : parseFloat ((splitBar tv).getD 3 []) with _ | a3
          · left; simp [hp3]
          rcases hp4 : parseFloat ((splitBar tv).getD 4 []) with _ | a4
          · left; simp [hp3, hp4]
          rcases hp5 : parseFloat ((splitBar tv).getD 5 []) with _ | a5
          · left; simp [hp3, hp4, hp5]
          right
          exact ⟨c, _, _, rfl, rfl⟩
        · simp only [hp0, hp1, hp2, if_neg h6]
          right
          exact ⟨c, _, _, rfl, rfl⟩
      · left; simp only [if_neg h3]

/-- `applyPosition` never changes the classification flags. -/
lemma applyPosition_flags (lib : ExtLib) (e : Entity) (data : List Char) (ct : Option ℚ) :
    (applyPosition lib e data ct).is_aircraft = e.is_aircraft ∧
    (applyPosition lib e data ct).is_missile = e.is_missile ∧
    (applyPosition lib e data ct).is_explosion = e.is_explosion := by
  rcases applyPosition_cases lib e data ct with h | ⟨c, p, o, hc, h⟩ <;>
    rw [h] <;> simp [Entity.add_point]

/-- `applyPosition` either leaves the timestamps unchanged or appends exactly
the current record time (the latter only when a current time is set). -/
lemma applyPosition_timestamps (lib : ExtLib) (e : Entity) (data : List Char)
    (ct : Option ℚ) :
    (applyPosition lib e data ct).timestamps = e.timestamps ∨
    ∃ c, ct = some c ∧ (applyPosition lib e data ct).timestamps = e.timestamps ++ [c] := by
  rcases applyPosition_cases lib e data ct with h | ⟨c, p, o, hc, h⟩
  · left; rw [h]
  · right; exact ⟨c, hc, by rw [h]; simp [Entity.add_point]⟩

/-! ## C4 -/

/-- The explosion condition of `createEntity`, read off the source's
`if entity_type and "explosion" in entity_type.lower()` test. -/
lemma createEntity_is_explosion (entity_id data : List Char) :
    (createEntity entity_id data).is_explosion =
      (match reSearchVal typeKey data with
       | some ty => containsSub explosionL (toLowerL ty)
       | none => false) := by
  simp only [createEntity]
  split_ifs with h1 h2 <;> simp_all [Entity.init]

/-- The resolved display name of a created entity. -/
lemma createEntity_name (entity_id data : List Char) :
    (createEntity entity_id data).name =
      (match reSearchVal nameKey data with
       | none => "Unknown ".toList ++ entity_id
       | some n => n) := by
  simp only [createEntity]
  split_ifs <;> rfl

/-- The missile condition of `createEntity`. -/
lemma createEntity_is_missile (entity_id data : List Char) :
    (createEntity entity_id data).is_missile =
      ((!(match reSearchVal typeKey data with
          | some ty => containsSub explosionL (toLowerL ty)
          | none => false)) &&
       ((beginsWith "A".toList entity_id || beginsWith "B".toList entity_id) &&
        containsSub aimL (createEntity entity_id data).name)) := by
  rw [createEntity_name]
  simp only [createEntity]
  split_ifs with h1 h2
  · simp [Entity.init, h1]
  · rw [Bool.not_eq_true] at h1
    simp [Entity.init, h1] <;> simpa using h2
  · rw [Bool.not_eq_true] at h1
    simp [Entity.init, h1] <;> simpa using h2

/-- The aircraft condition of `createEntity`. -/
lemma createEntity_is_aircraft (entity_id data : List Char) :
    (createEntity entity_id data).is_aircraft =
      ((!(match reSearchVal typeKey data with
          | some ty => containsSub explosionL (toLowerL ty)
          | none => false)) &&
       (!((beginsWith "A".toList entity_id || beginsWith "B".toList entity_id) &&
          containsSub aimL (createEntity entity_id data).name))) := by
  rw [createEntity_name]
  simp only [createEntity]
  split_ifs with h1 h2
  · simp [Entity.init, h1]
  · rw [Bool.not_eq_true] at h1
    simp [Entity.init, h1]
    rcases Bool.and_eq_true .. |>.mp h2 with ⟨hor, haim⟩
    rcases Bool.or_eq_true .. |>.mp hor with hA | hB
    · exact ⟨fun hA' => absurd hA (by simp [hA']), haim⟩
    · exact ⟨fun _ => hB, haim⟩
  · rw [Bool.not_eq_true] at h1 h2
    simp [Entity.init, h1]
    cases hA : beginsWith "A".toList entity_id with
    | true =>
      rw [hA] at h2
      simp only [Bool.true_or, Bool.true_and] at h2
      exact Or.inr h2
    | false =>
      cases hB : beginsWith "B".toList entity_id with
      | true =>
        rw [hA, hB] at h2
        simp only [Bool.false_or, Bool.true_and] at h2
        exact Or.inr h2
      | false => exact Or.inl ⟨hA, hB⟩

/-- The class-specific radius default of an explosion-classified entity whose
line carries no `Radius=` attribute. -/
lemma createEntity_radius_default (entity_id data : List Char)
    (hexp : (createEntity entity_id data).is_explosion = true)
    (hrad : reSearchVal radiusKey data = none) :
    (createEntity entity_id data).radius = 300 := by
  rw [createEntity_is_explosion] at hexp
  simp only [createEntity, hrad]
  split_ifs with h1 h2 <;> simp_all [Entity.init]

/-- C4: at first encounter of an id, classification is assigned exactly once:
exactly one of the three flags is set; explosion iff the `Type=` attribute
contains "explosion" case-insensitively, with radius defaulting to 300 (above
the generic default 100) when `Radius=` is absent; otherwise missile iff the
id starts with a side-prefix character (`A`/`B`) and the resolved name
contains "AIM"; everything else is aircraft.  Subsequent lines for the same
id keep the stored entity's classification flags unchanged. -/
theorem c4_classification_assigned_once (entity_id data : List Char) (e : Entity)
    (he : e = createEntity entity_id data) :
    ((e.is_explosion = true ∧ e.is_missile = false ∧ e.is_aircraft = false) ∨
     (e.is_explosion = false ∧ e.is_missile = true ∧ e.is_aircraft = false) ∨
     (e.is_explosion = false ∧ e.is_missile = false ∧ e.is_aircraft = true)) ∧
    (e.is_explosion = true ↔
      ∃ ty, reSearchVal typeKey data = some ty ∧
        containsSub explosionL (toLowerL ty) = true) ∧
    (e.is_explosion = true → reSearchVal radiusKey data = none →
      e.radius = 300 ∧ (100 : ℚ) < 300) ∧
    (e.is_explosion = false →
      (e.is_missile = true ↔
        ((beginsWith "A".toList entity_id = true ∨ beginsWith "B".toList entity_id = true) ∧
          containsSub aimL e.name = true))) ∧
    (∀ (lib : ExtLib) (d2 : List Char) (ct : Option ℚ)
        (dict : List (List Char × Entity)) (e0 : Entity),
      dictGet? dict entity_id = some e0 →
      ∃ e1, dictGet? (parseEntityData lib entity_id d2 ct dict) entity_id = some e1 ∧
        e1.is_aircraft = e0.is_aircraft ∧ e1.is_missile = e0.is_missile ∧
        e1.is_explosion = e0.is_explosion) := by
  have hrev : ∀ (lib : ExtLib) (d2 : List Char) (ct : Option ℚ)
      (dict : List (List Char × Entity)) (e0 : Entity),
      dictGet? dict entity_id = some e0 →
      ∃ e1, dictGet? (parseEntityData lib entity_id d2 ct dict) entity_id = some e1 ∧
        e1.is_aircraft = e0.is_aircraft ∧ e1.is_missile = e0.is_missile ∧
        e1.is_explosion = e0.is_explosion := by
    intro lib d2 ct dict e0 h0
    refine ⟨applyPosition lib e0 d2 ct, ?_, ?_, ?_, ?_⟩
    · unfold parseEntityData
      rw [h0]
      exact dictGet?_dictSet_self ..
    · exact (applyPosition_flags ..).1
    · exact (applyPosition_flags ..).2.1
    · exact (applyPosition_flags ..).2.2
  subst he
  refine ⟨?_, ?_, ?_, ?_, hrev⟩
  · rw [createEntity_is_explosion, createEntity_is_missile, createEntity_is_aircraft]
    cases hexp : (match reSearchVal typeKey data with
      | some ty => containsSub explosionL (toLowerL ty)
      | none => false) with
    | true => exact Or.inl ⟨rfl, by simp, by simp⟩
    | false =>
      cases hmis : ((beginsWith "A".toList entity_id || beginsWith "B".toList entity_id) &&
          containsSub aimL (createEntity entity_id data).name) with
      | true => exact Or.inr (Or.inl ⟨rfl, by simp [hmis], by simp [hmis]⟩)
      | false => exact Or.inr (Or.inr ⟨rfl, by simp [hmis], by simp [hmis]⟩)
  · rw [createEntity_is_explosion]
    rcases hty : reSearchVal typeKey data with _ | ty
    · simp
    · constructor
      · intro hc; exact ⟨ty, rfl, hc⟩
      · intro ⟨ty2, hty2, hc⟩
        rw [Option.some.inj hty2]
        exact hc
  · intro hexp hrad
    exact ⟨createEntity_radius_default entity_id data hexp hrad, by norm_num⟩
  · intro hexp
    rw [createEntity_is_explosion] at hexp
    rw [createEntity_is_missile, hexp]
    simp only [Bool.not_false, Bool.true_and, Bool.and_eq_true, Bool.or_eq_true]
/-- C4 witness: the theorem applied to the spec's concrete round-trip cases —
a side-prefixed id named `AIM-120` is missile-classified, and a
`Type=SAM_Explosion` entity without `Radius=` is explosion-classified with
the 300 default radius. -/
theorem c4_classification_assigned_once_witness :
    (createEntity "A1".toList "Name=AIM-120".toList).is_missile = true ∧
    (createEntity "X1".toList "Type=SAM_Explosion".toList).is_explosion = true ∧
    (createEntity "X1".toList "Type=SAM_Explosion".toList).radius = 300 := by
  have h1 := c4_classification_assigned_once "A1".toList "Name=AIM-120".toList _ rfl
  have h2 := c4_classification_assigned_once "X1".toList "Type=SAM_Explosion".toList _ rfl
  refine ⟨?_, ?_, ?_⟩
  · exact (h1.2.2.2.1 (by decide)).mpr ⟨Or.inl (by decide), by decide⟩
  · exact (h2.2.1).mpr ⟨"SAM_Explosion".toList, by decide, by decide⟩
  · exact (h2.2.2.1 (by decide) (by decide)).1

/-! ## Further importer lemmas -/

/-- The timestamps of the entity stored under `id`, or `[]` if absent. -/
def entityTimestamps (d : List (List Char × Entity)) (id : List Char) : List ℚ :=
  match dictGet? d id with
  | none => []
  | some e => e.timestamps

/-- The offset carried by a well-formed time-frame line, read off exactly the
way `_parse_data` reads it: the stripped line must start with `#` and the
rest must parse as a float. -/
def frameOffset? (l : List Char) : Option ℚ :=
  let s := stripL l
  if beginsWith hashL s then parseFloat (stripL (s.drop 1)) else none

/-- The condition "the `T=` attribute is present with enough fields but one of
the numeric fields it needs fails to parse", read off the structure of the
position-extraction block (a failing field raises `ValueError` inside the
`try`, so nothing is appended). -/
def badTFloats (data : List Char) : Bool :=
  match reSearchVal tKey data with
  | none => false
  | some tv =>
    let tvals := splitBar tv
    if 3 ≤ tvals.length then
      if (parseFloat (tvals.getD 0 [])).isNone || (parseFloat (tvals.getD 1 [])).isNone ||
          (parseFloat (tvals.getD 2 [])).isNone then true
      else if 6 ≤ tvals.length then
        (parseFloat (tvals.getD 3 [])).isNone || (parseFloat (tvals.getD 4 [])).isNone ||
          (parseFloat (tvals.getD 5 [])).isNone
      else false
    else false

/-- With no current record time, `applyPosition` is the identity. -/
lemma applyPosition_none (lib : ExtLib) (e : Entity) (data : List Char) :
    applyPosition lib e data none = e := by
  unfold applyPosition
  cases reSearchVal tKey data <;> rfl

/-- A freshly created entity carries no samples. -/
lemma createEntity_timestamps (entity_id data : List Char) :
    (createEntity entity_id data).timestamps = [] := by
  simp only [createEntity]
  split_ifs <;> rfl

/-- A freshly created entity carries no trajectory points. -/
lemma createEntity_trajectory (entity_id data : List Char) :
    (createEntity entity_id data).trajectory = [] := by
  simp only [createEntity]
  split_ifs <;> rfl

/-- A failing numeric field inside `T=` appends nothing: `applyPosition`
returns the entity unchanged. -/
lemma applyPosition_eq_of_badT (lib : ExtLib) (e : Entity) (data : List Char)
    (ct : Option ℚ) (h : badTFloats data = true) :
    applyPosition lib e data ct = e := by
  unfold applyPosition
  unfold badTFloats at h
  cases hT : reSearchVal tKey data with
  | none => cases ct <;> rfl
  | some tv =>
    rw [hT] at h
    simp only [] at h
    cases ct with
    | none => rfl
    | some c =>
      simp only []
      by_cases h3 : 3 ≤ (splitBar tv).length
      · simp only [if_pos h3] at h ⊢
        rcases hp0 : parseFloat ((splitBar tv).getD 0 []) with _ | a
        · simp [hp0]
        rcases hp1 : parseFloat ((splitBar tv).getD 1 []) with _ | b
        · simp [hp0, hp1]
        rcases hp2 : parseFloat ((splitBar tv).getD 2 []) with _ | c2
        · simp [hp0, hp1, hp2]
        rw [hp0, hp1, hp2] at h
        simp only [Option.isNone_some, Bool.or_false, Bool.false_or] at h
        by_cases h6 : 6 ≤ (splitBar tv).length
        · rw [if_pos h6] at h
          simp only [hp0, hp1, hp2, if_pos h6]
          rcases hp3 : parseFloat ((splitBar tv).getD 3 []) with _ | a3
          · simp [hp3]
          rcases hp4 : parseFloat ((splitBar tv).getD 4 []) with _ | a4
          · simp [hp3, hp4]
          rcases hp5 : parseFloat ((splitBar tv).getD 5 []) with _ | a5
          · simp [hp3, hp4, hp5]
          rw [hp3, hp4, hp5] at h
          simp at h
        · rw [if_neg h6] at h
          cases h
      · rw [if_neg h3] at h
        cases h

/-- When the key is already present, the stored entity after
`parseEntityData` is `applyPosition` of the old one. -/
lemma parseEntityData_existing (lib : ExtLib) (entity_id data : List Char)
    (ct : Option ℚ) (dict : List (List Char × Entity)) (e0 : Entity)
    (h : dictGet? dict entity_id = some e0) :
    dictGet? (parseEntityData lib entity_id data ct dict) entity_id =
      some (applyPosition lib e0 data ct) := by
  unfold parseEntityData
  rw [h]
  exact dictGet?_dictSet_self ..

/-- A line whose `T=` numeric fields fail changes no entity's samples. -/
lemma parseEntityData_badT_timestamps (lib : ExtLib) (entity_id data : List Char)
    (ct : Option ℚ) (dict : List (List Char × Entity))
    (hbad : badTFloats data = true) (id' : List Char) :
    entityTimestamps (parseEntityData lib entity_id data ct dict) id' =
      entityTimestamps dict id' := by
  unfold parseEntityData entityTimestamps
  by_cases hid : id' = entity_id
  · subst hid
    rw [dictGet?_dictSet_self, applyPosition_eq_of_badT lib _ data ct hbad]
    cases hd : dictGet? dict id' with
    | none => simp only []; rw [createEntity_timestamps]
    | some e0 => rfl
  · rw [dictGet?_dictSet_ne _ _ _ _ hid]

/-- A line processed with no current record time changes no entity's samples. -/
lemma parseEntityData_none_timestamps (lib : ExtLib) (entity_id data : List Char)
    (dict : List (List Char × Entity)) (id' : List Char) :
    entityTimestamps (parseEntityData lib entity_id data none dict) id' =
      entityTimestamps dict id' := by
  unfold parseEntityData entityTimestamps
  by_cases hid : id' = entity_id
  · subst hid
    rw [dictGet?_dictSet_self, applyPosition_none]
    cases hd : dictGet? dict id' with
    | none => simp only []; rw [createEntity_timestamps]
    | some e0 => rfl
  · rw [dictGet?_dictSet_ne _ _ _ _ hid]

/-- With the reference time set, processing a line never raises. -/
lemma stepLine_ok (lib : ExtLib) (r : ℚ) (st : ParseState) (line : List Char) :
    ∃ st', stepLine lib (some r) st line = .ok st' := by
  unfold stepLine
  simp only []
  by_cases hl : stripL line = []
  · rw [if_pos hl]; exact ⟨st, rfl⟩
  rw [if_neg hl]
  by_cases hds : (st.data_start || beginsWith hashL (stripL line)) = false
  · rw [if_pos hds]; exact ⟨st, rfl⟩
  rw [if_neg hds]
  by_cases hh : beginsWith hashL (stripL line) = true
  · rw [if_pos hh]
    cases hpf : parseFloat (stripL ((stripL line).drop 1)) with
    | none => exact ⟨_, rfl⟩
    | some off => exact ⟨_, rfl⟩
  · rw [if_neg hh]
    by_cases hce : (',' ∈ stripL line) ∧ ('=' ∈ stripL line)
    · rw [if_pos hce]; exact ⟨_, rfl⟩
    · rw [if_neg hce]; exact ⟨_, rfl⟩

/-- A line before the first time-frame marker is skipped wholesale. -/
lemma stepLine_skip (lib : ExtLib) (rt : Option ℚ) (st : ParseState) (line : List Char)
    (hds : st.data_start = false) (hnh : beginsWith hashL (stripL line) = false) :
    stepLine lib rt st line = .ok st := by
  unfold stepLine
  by_cases hl : stripL line = []
  · rw [if_pos hl]
  · rw [if_neg hl]
    simp only [hds, hnh, Bool.or_false]
    rfl

/-- A time-frame line with an unparsable offset only flips `data_start`
(the `ValueError` is caught and the line skipped). -/
lemma stepLine_badFrame (lib : ExtLib) (rt : Option ℚ) (st : ParseState)
    (line : List Char) (h1 : beginsWith hashL (stripL line) = true)
    (h2 : parseFloat (stripL ((stripL line).drop 1)) = none) :
    stepLine lib rt st line = .ok { st with data_start := true } := by
  unfold stepLine
  have hl : ¬ stripL line = [] := by
    intro hh
    rw [hh] at h1
    simp [beginsWith, hashL] at h1
  rw [if_neg hl]
  simp only [h1, Bool.or_true, h2]
  split_ifs <;> simp_all

/-- With the reference time set, the whole line loop never raises. -/
lemma runLines_ok (lib : ExtLib) (r : ℚ) :
    ∀ (lines : List (List Char)) (st : ParseState),
      ∃ st', runLines lib (some r) st lines = .ok st' := by
  intro lines
  induction lines with
  | nil => intro st; exact ⟨st, rfl⟩
  | cons l ls ih =>
    intro st
    obtain ⟨st1, h1⟩ := stepLine_ok lib r st l
    unfold runLines
    rw [h1]
    exact ih st1

/-- With a header that produced a reference time, import reports success. -/
lemma importFile_true_of_header (lib : ExtLib) (eng : DataEngine)
    (lines : List (List Char)) (r : ℚ) (h : parseHeader lines = some (some r)) :
    (importFile lib eng lines).1 = true := by
  unfold importFile
  rw [h]
  simp only []
  unfold parseData
  obtain ⟨st', hst⟩ := runLines_ok lib r lines initState
  rw [hst]

/-! ## C6 -/

/-- C6: with a valid header (reference time established), a malformed line
never aborts the parse: (a) the per-line step with the reference time set
always returns a state (no uncaught exception); (b) a time-frame line whose
offset does not parse leaves the state unchanged apart from the
`data_start` latch, so every other line is processed exactly as without it;
(c) an entity line whose `T=` numeric fields fail to parse changes no
entity's samples; and (d) whenever the header succeeds with a reference
time, the whole import still reports success. -/
theorem c6_malformed_lines_skipped (lib : ExtLib) (r : ℚ) (st : ParseState)
    (line : List Char) (eng : DataEngine) (lines : List (List Char)) :
    (∃ st', stepLine lib (some r) st line = .ok st') ∧
    (beginsWith hashL (stripL line) = true →
      parseFloat (stripL ((stripL line).drop 1)) = none →
      stepLine lib (some r) st line = .ok { st with data_start := true }) ∧
    (∀ entity_id data ct dict, badTFloats data = true →
      ∀ id', entityTimestamps (parseEntityData lib entity_id data ct dict) id' =
        entityTimestamps dict id') ∧
    (parseHeader lines = some (some r) → (importFile lib eng lines).1 = true) := by
  refine ⟨stepLine_ok lib r st line, stepLine_badFrame lib (some r) st line, ?_, ?_⟩
  · intro entity_id data ct dict hbad id'
    exact parseEntityData_badT_timestamps lib entity_id data ct dict hbad id'
  · intro h
    exact importFile_true_of_header lib eng lines r h

/-- A trivial stand-in for the external geodesy/trig library, used only to
evaluate the model on concrete documents. -/
def libTriv : ExtLib := ⟨fun _ _ _ => (0, 0, 0), fun x => x⟩

/-- A document containing a malformed time-frame line followed by further
well-formed records. -/
def docBadFrame : List (List Char) :=
  ["FileType=acmi".toList, "ReferenceTime=2020-01-01T00:00:00Z".toList,
   "#notanumber".toList, "#1".toList, "A,T=1|2|3".toList]

/-- C6 witness: the theorem applied to a concrete document whose third line
is the malformed frame `#notanumber`; the import still succeeds. -/
theorem c6_malformed_lines_skipped_witness :
    (importFile libTriv DataEngine.init docBadFrame).1 = true :=
  (c6_malformed_lines_skipped libTriv 1577836800 initState [] DataEngine.init
    docBadFrame).2.2.2 (by decide)

/-! ## Finalization and no-reference-time lemmas -/

/-- A value looked up in a dict is stored in it under some key. -/
lemma dictGet?_mem {α : Type} (d : List (List Char × α)) (k : List Char) (v : α)
    (h : dictGet? d k = some v) : ∃ k', (k', v) ∈ d := by
  unfold dictGet? at h
  cases hf : List.find? (fun p => decide (p.1 = k)) d with
  | none => rw [hf] at h; cases h
  | some q =>
    rw [hf] at h
    have hm := List.mem_of_find?_eq_some hf
    injection h with h2
    exact ⟨q.1, by rw [← h2]; exact hm⟩

/-- Entities surviving `add_entity` are the old ones or the new binding. -/
lemma mem_add_entity (eng : DataEngine) (e : Entity) (p : List Char × Entity)
    (h : p ∈ (eng.add_entity e).entities) : p ∈ eng.entities ∨ p = (e.id, e) :=
  mem_dictSet e.id e eng.entities p h

/-- Unrolling the finalization fold: every surviving entity either was in the
engine already or is a parsed entity with at least one trajectory point. -/
lemma foldl_add_mem :
    ∀ (vals : List Entity) (eng : DataEngine) (p : List Char × Entity),
      p ∈ (vals.foldl
        (fun acc e => if e.trajectory = [] then acc else acc.add_entity e) eng).entities →
      p ∈ eng.entities ∨ (p.2 ∈ vals ∧ p.2.trajectory ≠ []) := by
  intro vals
  induction vals with
  | nil => intro eng p h; exact Or.inl h
  | cons e vs ih =>
    intro eng p h
    rw [List.foldl_cons] at h
    by_cases he : e.trajectory = []
    · rw [if_pos he] at h
      rcases ih _ _ h with h1 | ⟨h2, h3⟩
      · exact Or.inl h1
      · exact Or.inr ⟨List.mem_cons_of_mem _ h2, h3⟩
    · rw [if_neg he] at h
      rcases ih _ _ h with h1 | ⟨h2, h3⟩
      · rcases mem_add_entity _ _ _ h1 with ha | hb
        · exact Or.inl ha
        · refine Or.inr ⟨?_, ?_⟩
          · rw [hb]; exact List.mem_cons_self _ _
          · rw [hb]; exact he
      · exact Or.inr ⟨List.mem_cons_of_mem _ h2, h3⟩

/-- Every entity added by `finalize` comes from the live dict and has ≥ 1
trajectory point. -/
lemma finalize_mem (eng : DataEngine) (st : ParseState) (p : List Char × Entity)
    (h : p ∈ (finalize eng st).entities) :
    p ∈ eng.entities ∨ (p.2 ∈ dictValues st.current_entities ∧ p.2.trajectory ≠ []) := by
  unfold finalize at h
  exact foldl_add_mem _ _ _ h

/-- Finalizing a state whose entities all have empty trajectories adds
nothing. -/
lemma foldl_finalize_empty :
    ∀ (vals : List Entity) (eng : DataEngine),
      (∀ e ∈ vals, e.trajectory = []) →
      vals.foldl (fun acc e => if e.trajectory = [] then acc else acc.add_entity e) eng
        = eng := by
  intro vals
  induction vals with
  | nil => intro eng _; rfl
  | cons e vs ih =>
    intro eng h
    rw [List.foldl_cons, if_pos (h e (List.mem_cons_self e vs))]
    exact ih eng (fun x hx => h x (List.mem_cons_of_mem _ hx))

lemma finalize_eq_of_empty (eng : DataEngine) (st : ParseState)
    (h : ∀ p ∈ st.current_entities, (p : List Char × Entity).2.trajectory = []) :
    finalize eng st = eng := by
  unfold finalize
  refine foldl_finalize_empty _ _ ?_
  intro e he
  rcases List.mem_map.mp he with ⟨q, hq, rfl⟩
  exact h q hq

/-- An entity line processed with no current record time keeps every stored
trajectory empty. -/
lemma parseEntityData_none_trajectories (lib : ExtLib) (eid data : List Char)
    (dict : List (List Char × Entity))
    (h2 : ∀ p ∈ dict, (p : List Char × Entity).2.trajectory = []) :
    ∀ p ∈ parseEntityData lib eid data none dict,
      (p : List Char × Entity).2.trajectory = [] := by
  intro p hp
  unfold parseEntityData at hp
  simp only [] at hp
  rw [applyPosition_none] at hp
  rcases mem_dictSet _ _ _ _ hp with hin | heq
  · exact h2 p hin
  · rw [heq]
    simp only []
    cases hd : dictGet? dict eid with
    | none => exact createEntity_trajectory eid data
    | some e0 =>
      rcases dictGet?_mem _ _ _ hd with ⟨k', hk'⟩
      exact h2 _ hk'

/-- With a missing reference time, one line step keeps the current time unset
and every stored trajectory empty (a parsable frame line would instead raise,
which is the `.error` case). -/
lemma stepLine_none_props (lib : ExtLib) (st : ParseState) (line : List Char)
    (st1 : ParseState) (hct : st.current_time = none)
    (h2 : ∀ p ∈ st.current_entities, (p : List Char × Entity).2.trajectory = [])
    (hstep : stepLine lib none st line = .ok st1) :
    st1.current_time = none ∧
    ∀ p ∈ st1.current_entities, (p : List Char × Entity).2.trajectory = [] := by
  unfold stepLine at hstep
  simp only [] at hstep
  by_cases hl : stripL line = []
  · rw [if_pos hl] at hstep; cases hstep; exact ⟨hct, h2⟩
  rw [if_neg hl] at hstep
  by_cases hds : (st.data_start || beginsWith hashL (stripL line)) = false
  · rw [if_pos hds] at hstep; cases hstep; exact ⟨hct, h2⟩
  rw [if_neg hds] at hstep
  by_cases hh : beginsWith hashL (stripL line) = true
  · rw [if_pos hh] at hstep
    cases hpf : parseFloat (stripL ((stripL line).drop 1)) with
    | none => rw [hpf] at hstep; cases hstep; exact ⟨hct, h2⟩
    | some off => rw [hpf] at hstep; cases hstep
  · rw [if_neg hh] at hstep
    by_cases hce : (',' ∈ stripL line) ∧ ('=' ∈ stripL line)
    · rw [if_pos hce] at hstep
      cases hstep
      refine ⟨hct, ?_⟩
      simp only [hct]
      exact parseEntityData_none_trajectories lib _ _ _ h2
    · rw [if_neg hce] at hstep; cases hstep; exact ⟨hct, h2⟩

/-- With a missing reference time, however far the loop gets without raising,
no sample is ever recorded. -/
lemma runLines_none_inv (lib : ExtLib) :
    ∀ (lines : List (List Char)) (st : ParseState),
      st.current_time = none →
      (∀ p ∈ st.current_entities, (p : List Char × Entity).2.trajectory = []) →
      ∀ st', runLines lib none st lines = .ok st' →
        st'.current_time = none ∧
        ∀ p ∈ st'.current_entities, (p : List Char × Entity).2.trajectory = [] := by
  intro lines
  induction lines with
  | nil =>
    intro st h1 h2 st' h
    unfold runLines at h
    cases h
    exact ⟨h1, h2⟩
  | cons l ls ih =>
    intro st h1 h2 st' h
    unfold runLines at h
    cases hstep : stepLine lib none st l with
    | error u => rw [hstep] at h; cases h
    | ok st1 =>
      rw [hstep] at h
      obtain ⟨h1', h2'⟩ := stepLine_none_props lib st l st1 h1 h2 hstep
      exact ih st1 h1' h2' st' h

/-! ## C7 -/

/-- C7 counterexample: a well-headed document containing a frame marker but
no entity data imports *successfully* while leaving the registry empty and
the time range absent — contradicting the claim that success always comes
with a populated registry and an available time range. -/
theorem c7_counterexample :
    (importFile libTriv DataEngine.init
      ["FileType=acmi_ver_2".toList, "ReferenceTime=2020-01-01T00:00:00Z".toList,
       "#0".toList]).1 = true ∧
    (importFile libTriv DataEngine.init
      ["FileType=acmi_ver_2".toList, "ReferenceTime=2020-01-01T00:00:00Z".toList,
       "#0".toList]).2.entities = [] ∧
    (importFile libTriv DataEngine.init
      ["FileType=acmi_ver_2".toList, "ReferenceTime=2020-01-01T00:00:00Z".toList,
       "#0".toList]).2.get_time_range = (none, none) := by
  refine ⟨by decide, by decide, by decide⟩

/-- C7 amended: failure is atomic — whenever `import` reports failure the
registry is exactly unchanged, and it does report failure on empty input, on
a first line failing the `FileType=`/`acmi` validation, and on every
header-level failure (including an unparsable reference time); when the
header passes without establishing a reference time the registry is likewise
never modified.  On success the registry holds exactly the finalized
entities, which may be none (cf. the counterexample), so success does not
guarantee a populated registry. -/
theorem c7_import_failure_atomic (lib : ExtLib) (eng : DataEngine)
    (lines : List (List Char)) :
    ((importFile lib eng lines).1 = false → (importFile lib eng lines).2 = eng) ∧
    (lines = [] → importFile lib eng lines = (false, eng)) ∧
    (∀ l ls, lines = l :: ls → checkFirstLine l = false →
      importFile lib eng lines = (false, eng)) ∧
    (parseHeader lines = none → importFile lib eng lines = (false, eng)) ∧
    (parseHeader lines = some none → (importFile lib eng lines).2 = eng) := by
  refine ⟨?_, ?_, ?_, ?_, ?_⟩
  · intro hf
    unfold importFile at hf ⊢
    cases hh : parseHeader lines with
    | none => rfl
    | some rt =>
      rw [hh] at hf
      simp only [] at hf ⊢
      cases hpd : parseData lib rt eng lines with
      | error u => rfl
      | ok eng' =>
        rw [hpd] at hf
        simp at hf
  · intro h; subst h; rfl
  · intro l ls hl hcf
    subst hl
    unfold importFile parseHeader
    simp only []
    rw [if_neg (by rw [hcf]; simp)]
  · intro h
    unfold importFile
    rw [h]
  · intro h
    unfold importFile
    rw [h]
    simp only []
    unfold parseData
    cases hrun : runLines lib none initState lines with
    | error u => rfl
    | ok st' =>
      have hprops := runLines_none_inv lib lines initState rfl
        (by intro p hp; cases hp) st' hrun
      have hfin : finalize eng st' = eng := finalize_eq_of_empty eng st' hprops.2
      simp only []
      exact hfin

/-- C7 witness: the amended theorem applied to a one-line document whose
first line carries no `FileType=` marker — the import fails and the registry
is returned untouched. -/
theorem c7_import_failure_atomic_witness :
    importFile libTriv DataEngine.init ["NotAHeader".toList] =
      (false, DataEngine.init) :=
  (c7_import_failure_atomic libTriv DataEngine.init
    ["NotAHeader".toList]).2.2.1 "NotAHeader".toList [] rfl (by decide)

/-! ## C8 -/

/-- C8: (a) importing any document into a fresh registry only ever adds
entities with at least one sample — zero-sample entities are excluded at
finalization; (b) a line arriving before any time-frame marker is skipped
wholesale, so it contributes zero samples (and, in this code, not even an
entity record); (c) while no current record time is established, no line can
append a sample to any entity. -/
theorem c8_premarker_zero_samples (lib : ExtLib) (rt : Option ℚ)
    (st : ParseState) (line : List Char) (lines : List (List Char)) :
    (∀ p ∈ (importFile lib DataEngine.init lines).2.entities,
      (p : List Char × Entity).2.trajectory ≠ []) ∧
    (st.data_start = false → beginsWith hashL (stripL line) = false →
      stepLine lib rt st line = .ok st) ∧
    (st.current_time = none → ∀ st1, stepLine lib rt st line = .ok st1 →
      ∀ id, entityTimestamps st1.current_entities id =
        entityTimestamps st.current_entities id) := by
  refine ⟨?_, stepLine_skip lib rt st line, ?_⟩
  · intro p hp
    unfold importFile at hp
    rcases hh : parseHeader lines with _ | rt'
    · rw [hh] at hp
      simp only [] at hp
      simp [DataEngine.init] at hp
    · rw [hh] at hp
      simp only [] at hp
      rcases hpd : parseData lib rt' DataEngine.init lines with u | eng'
      · rw [hpd] at hp
        simp only [] at hp
        simp [DataEngine.init] at hp
      · rw [hpd] at hp
        simp only [] at hp
        unfold parseData at hpd
        rcases hrun : runLines lib rt' initState lines with u | st'
        · rw [hrun] at hpd; cases hpd
        · rw [hrun] at hpd
          injection hpd with hpd
          rw [← hpd] at hp
          rcases finalize_mem _ _ _ hp with hin | ⟨_, htraj⟩
          · simp [DataEngine.init] at hin
          · exact htraj
  · intro hct st1 hstep id
    unfold stepLine at hstep
    simp only [] at hstep
    by_cases hl : stripL line = []
    · rw [if_pos hl] at hstep; cases hstep; rfl
    rw [if_neg hl] at hstep
    by_cases hds : (st.data_start || beginsWith hashL (stripL line)) = false
    · rw [if_pos hds] at hstep; cases hstep; rfl
    rw [if_neg hds] at hstep
    by_cases hh : beginsWith hashL (stripL line) = true
    · rw [if_pos hh] at hstep
      cases hpf : parseFloat (stripL ((stripL line).drop 1)) with
      | none => rw [hpf] at hstep; cases hstep; rfl
      | some off =>
        rw [hpf] at hstep
        cases rt with
        | none => cases hstep
        | some r => cases hstep; rfl
    · rw [if_neg hh] at hstep
      by_cases hce : (',' ∈ stripL line) ∧ ('=' ∈ stripL line)
      · rw [if_pos hce] at hstep
        cases hstep
        simp only [hct]
        exact parseEntityData_none_timestamps lib _ _ _ id
      · rw [if_neg hce] at hstep; cases hstep; rfl

/-- C8 witness: the theorem applied to a concrete entity line arriving before
any time-frame marker — the parse state is returned exactly unchanged. -/
theorem c8_premarker_zero_samples_witness :
    stepLine libTriv none initState "101,Name=Eagle,T=1|2|3".toList = .ok initState :=
  (c8_premarker_zero_samples libTriv none initState
    "101,Name=Eagle,T=1|2|3".toList []).2.1 (by decide) (by decide)

/-! ## C9 -/

lemma mem_of_getLast? {α : Type} : ∀ (l : List α) (a : α), l.getLast? = some a → a ∈ l := by
  intro l
  induction l with
  | nil => intro a h; cases h
  | cons x xs ih =>
    intro a h
    cases xs with
    | nil =>
      simp [List.getLast?] at h
      subst h
      exact List.mem_cons_self _ _
    | cons y ys =>
      rw [List.getLast?_cons_cons] at h
      exact List.mem_cons_of_mem _ (ih a h)

lemma chain'_append_singleton (l : List ℚ) (c : ℚ) (hch : l.Chain' (· ≤ ·))
    (hle : ∀ u ∈ l, u ≤ c) : (l ++ [c]).Chain' (· ≤ ·) := by
  rw [List.chain'_append]
  refine ⟨hch, List.chain'_singleton c, ?_⟩
  intro x hx y hy
  simp at hy
  subst hy
  exact hle x (mem_of_getLast? l x hx)

/-- The invariant carried through the line loop for the monotonicity proof:
the remaining frame offsets are non-decreasing, the current record time (when
set) precedes every remaining frame instant, and every stored sample sequence
is non-decreasing and bounded by the current record time. -/
def ParseInv (rt : Option ℚ) (st : ParseState) (offs : List ℚ) : Prop :=
  offs.Pairwise (· ≤ ·) ∧
  (∀ ct, st.current_time = some ct → ∃ r, rt = some r ∧ ∀ o ∈ offs, ct ≤ r + o) ∧
  (∀ p ∈ st.current_entities,
    (p : List Char × Entity).2.timestamps.Chain' (· ≤ ·) ∧
    ∀ u ∈ (p : List Char × Entity).2.timestamps,
      ∃ ct, st.current_time = some ct ∧ u ≤ ct)

/-- One line step preserves the invariant, consuming the line's frame offset
if it has one. -/
lemma stepLine_inv (lib : ExtLib) (rt : Option ℚ) (st st1 : ParseState)
    (line : List Char) (offs : List ℚ)
    (hstep : stepLine lib rt st line = .ok st1)
    (hinv : ParseInv rt st ((frameOffset? line).toList ++ offs)) :
    ParseInv rt st1 offs := by
  obtain ⟨hpw, hct, hent⟩ := hinv
  have hpw' : offs.Pairwise (· ≤ ·) := (List.pairwise_append.mp hpw).2.1
  have hkeep : ∀ (ds : Bool),
      ParseInv rt ⟨st.current_entities, st.current_time, ds⟩ offs := by
    intro ds
    refine ⟨hpw', ?_, ?_⟩
    · intro ct h
      obtain ⟨r, hr, hb⟩ := hct ct h
      exact ⟨r, hr, fun o ho => hb o (List.mem_append_right _ ho)⟩
    · intro p hp
      obtain ⟨h1, h2⟩ := hent p hp
      exact ⟨h1, fun u hu => h2 u hu⟩
  unfold stepLine at hstep
  simp only [] at hstep
  by_cases hl : stripL line = []
  · rw [if_pos hl] at hstep
    cases hstep
    exact hkeep st.data_start
  rw [if_neg hl] at hstep
  by_cases hds : (st.data_start || beginsWith hashL (stripL line)) = false
  · rw [if_pos hds] at hstep
    cases hstep
    exact hkeep st.data_start
  rw [if_neg hds] at hstep
  by_cases hh : beginsWith hashL (stripL line) = true
  · rw [if_pos hh] at hstep
    cases hpf : parseFloat (stripL ((stripL line).drop 1)) with
    | none =>
      rw [hpf] at hstep
      cases hstep
      exact hkeep _
    | some off =>
      rw [hpf] at hstep
      have hfo : frameOffset? line = some off := by
        unfold frameOffset?
        simp only []
        rw [if_pos hh]
        exact hpf
      have hlist : (frameOffset? line).toList ++ offs = off :: offs := by
        rw [hfo]; rfl
      rw [hlist] at hpw hct
      cases rt with
      | none => cases hstep
      | some r =>
        cases hstep
        refine ⟨hpw', ?_, ?_⟩
        · intro ct h
          injection h with h
          subst h
          refine ⟨r, rfl, ?_⟩
          intro o ho
          have hoo : off ≤ o := (List.pairwise_cons.mp hpw).1 o ho
          exact add_le_add_left hoo r
        · intro p hp
          obtain ⟨h1, h2⟩ := hent p hp
          refine ⟨h1, ?_⟩
          intro u hu
          obtain ⟨ct0, hc0, hle⟩ := h2 u hu
          obtain ⟨r', hr', hb⟩ := hct ct0 hc0
          injection hr' with hr'
          rw [← hr'] at hb
          exact ⟨r + off, rfl, le_trans hle (hb off (List.mem_cons_self _ _))⟩
  · rw [if_neg hh] at hstep
    by_cases hce : (',' ∈ stripL line) ∧ ('=' ∈ stripL line)
    · rw [if_pos hce] at hstep
      cases hstep
      refine ⟨hpw', ?_, ?_⟩
      · intro ct h
        obtain ⟨r, hr, hb⟩ := hct ct h
        exact ⟨r, hr, fun o ho => hb o (List.mem_append_right _ ho)⟩
      · intro p hp
        unfold parseEntityData at hp
        simp only [] at hp
        rcases mem_dictSet _ _ _ _ hp with hin | heq
        · obtain ⟨h1, h2⟩ := hent p hin
          exact ⟨h1, fun u hu => h2 u hu⟩
        · rw [heq]
          simp only []
          have hbase : ∀ e : Entity,
              (dictGet? st.current_entities
                ((stripL line).takeWhile (fun c => decide (¬ c = ','))) = some e ∨
               e = createEntity
                ((stripL line).takeWhile (fun c => decide (¬ c = ',')))
                ((stripL line).drop
                  (((stripL line).takeWhile (fun c => decide (¬ c = ','))).length + 1))) →
              e.timestamps.Chain' (· ≤ ·) ∧
              ∀ u ∈ e.timestamps, ∃ ct, st.current_time = some ct ∧ u ≤ ct := by
            intro e he
            rcases he with hd | hcr
            · obtain ⟨k', hk'⟩ := dictGet?_mem _ _ _ hd
              exact hent _ hk'
            · rw [hcr, createEntity_timestamps]
              exact ⟨List.chain'_nil, by intro u hu; cases hu⟩
          set eid := (stripL line).takeWhile (fun c => decide (¬ c = ',')) with heid
          set rest := (stripL line).drop (eid.length + 1) with hrest
          have hbase' :
              (match dictGet? st.current_entities eid with
               | none => createEntity eid rest
               | some e0 => e0).timestamps.Chain' (· ≤ ·) ∧
              ∀ u ∈ (match dictGet? st.current_entities eid with
                      | none => createEntity eid rest
                      | some e0 => e0).timestamps,
                ∃ ct, st.current_time = some ct ∧ u ≤ ct := by
            cases hd : dictGet? st.current_entities eid with
            | none => exact hbase _ (Or.inr rfl)
            | some e0 => exact hbase e0 (Or.inl hd)
          obtain ⟨hch0, hbd0⟩ := hbase'
          rcases applyPosition_cases lib _ rest st.current_time with hap | ⟨c, pp, oo, hc, hap⟩
          · rw [hap]
            exact ⟨hch0, fun u hu => hbd0 u hu⟩
          · rw [hap]
            simp only [Entity.add_point]
            constructor
            · apply chain'_append_singleton _ _ hch0
              intro u hu
              obtain ⟨ct0, hc0, hle⟩ := hbd0 u hu
              rw [hc] at hc0
              injection hc0 with h
              rw [h]
              exact hle
            · intro u hu
              rcases List.mem_append.mp hu with h | h
              · exact hbd0 u h
              · simp at h
                exact ⟨c, hc, le_of_eq h⟩
    · rw [if_neg hce] at hstep
      cases hstep
      exact hkeep _

/-- The whole line loop preserves the invariant, leaving at the end every
stored sample sequence non-decreasing. -/
lemma runLines_inv (lib : ExtLib) (rt : Option ℚ) :
    ∀ (lines : List (List Char)) (st : ParseState),
      ParseInv rt st (lines.filterMap frameOffset?) →
      ∀ st', runLines lib rt st lines = .ok st' →
        ∀ p ∈ st'.current_entities,
          (p : List Char × Entity).2.timestamps.Chain' (· ≤ ·) := by
  intro lines
  induction lines with
  | nil =>
    intro st hinv st' h
    unfold runLines at h
    cases h
    exact fun p hp => (hinv.2.2 p hp).1
  | cons l ls ih =>
    intro st hinv st' h
    unfold runLines at h
    cases hstep : stepLine lib rt st l with
    | error u => rw [hstep] at h; cases h
    | ok st1 =>
      rw [hstep] at h
      refine ih st1 ?_ st' h
      apply stepLine_inv lib rt st st1 l (ls.filterMap frameOffset?) hstep
      have hsplit : (l :: ls).filterMap frameOffset? =
          (frameOffset? l).toList ++ ls.filterMap frameOffset? := by
        cases hf : frameOffset? l <;> simp [List.filterMap_cons, hf]
      rw [← hsplit]
      exact hinv

/-- A document with frame offsets 5 then 1: the importer happily appends the
samples in file order, producing a decreasing timestamp sequence. -/
def doc9 : List (List Char) :=
  ["FileType=acmi".toList, "ReferenceTime=2020-01-01T00:00:00Z".toList,
   "#5".toList, "A,T=1|2|3".toList, "#1".toList, "A,T=1|2|3".toList]

/-- C9 counterexample: importing `doc9` yields one entity whose timestamp
sequence is `[ref+5, ref+1]` — the second appended sample's timestamp is
strictly smaller than its predecessor's, refuting the claimed invariant for
arbitrary documents. -/
theorem c9_counterexample :
    ((importFile libTriv DataEngine.init doc9).2.entities.map
      (fun p => p.2.timestamps)) =
      [[(1577836800 : ℚ) + 5, (1577836800 : ℚ) + 1]] ∧
    ¬ ((1577836800 : ℚ) + 5 ≤ (1577836800 : ℚ) + 1) := by
  constructor
  · rfl
  · norm_num

/-- C9 amended: for every document whose well-formed time-frame offsets are
non-decreasing in file order, every entity in the registry produced by
importing it has a non-decreasing timestamp sequence (each appended sample's
timestamp is at least the previous one's); for documents with out-of-order
frames this fails, per the counterexample. -/
theorem c9_timestamps_sorted (lib : ExtLib) (lines : List (List Char))
    (hmono : (lines.filterMap frameOffset?).Pairwise (· ≤ ·)) :
    ∀ p ∈ (importFile lib DataEngine.init lines).2.entities,
      (p : List Char × Entity).2.timestamps.Chain' (· ≤ ·) := by
  intro p hp
  unfold importFile at hp
  rcases hh : parseHeader lines with _ | rt
  · rw [hh] at hp
    simp only [] at hp
    simp [DataEngine.init] at hp
  · rw [hh] at hp
    simp only [] at hp
    rcases hpd : parseData lib rt DataEngine.init lines with u | eng'
    · rw [hpd] at hp
      simp only [] at hp
      simp [DataEngine.init] at hp
    · rw [hpd] at hp
      simp only [] at hp
      unfold parseData at hpd
      rcases hrun : runLines lib rt initState lines with u | st'
      · rw [hrun] at hpd; cases hpd
      · rw [hrun] at hpd
        injection hpd with hpd
        rw [← hpd] at hp
        rcases finalize_mem _ _ _ hp with hin | ⟨hmem, _⟩
        · simp [DataEngine.init] at hin
        · rcases List.mem_map.mp hmem with ⟨q, hq, hq2⟩
          have hinv0 : ParseInv rt initState (lines.filterMap frameOffset?) := by
            refine ⟨hmono, ?_, ?_⟩
            · intro ct h; cases h
            · intro p2 hp2; cases hp2
          have hres := runLines_inv lib rt lines initState hinv0 st' hrun q hq
          rw [← hq2]
          exact hres

/-- A document whose frame offsets are in increasing order. -/
def docSorted : List (List Char) :=
  ["FileType=acmi".toList, "ReferenceTime=2020-01-01T00:00:00Z".toList,
   "#1".toList, "A,T=1|2|3".toList, "#5".toList, "A,T=1|2|3".toList]

/-- C9 witness: the amended theorem applied to a concrete document with
increasing frame offsets; the single resulting entity's timestamps are
non-decreasing. -/
theorem c9_timestamps_sorted_witness :
    ((importFile libTriv DataEngine.init docSorted).2.entities.getD 0
      (([] : List Char), Entity.init [] [] none none)).2.timestamps.Chain'
        (· ≤ ·) :=
  c9_timestamps_sorted libTriv docSorted (by decide) _ (List.mem_cons_self _ _)

end PyTacview
